import Mathlib

/-!
Verification of the conversation-context management subsystem and the
signal-merging / trigger-aggregation engine of the signa-agent repository.

The TypeScript sources are shallowly embedded:

* `lib/ai/context/session.ts` (ContextSession: turn windowing, tool-result
  trimming, summary injection, metrics) — namespace `Ctx`;
* `lib/ai/context/config.ts` (ContextConfig) — structure `Ctx.ContextConfig`;
* `lib/repositories/postgres/triggers.ts` (`normalizeDate`,
  `mergeAndSortTriggerResults`) — namespace `Trig`;
* the `SignalEnrichmentService.rankByRelevance` ranking — namespace `Rank`.

JavaScript strings are modelled by `String`, compared with the code-unit
lexicographic order `strLt` below (JS `<` on strings); all string data in
the modelled domain is ASCII, where Lean code points and JS UTF-16 units
coincide.  JS `Array.prototype.sort` is stable (ES2019); for a consistent
comparator the stable sort is unique, and it is modelled by the stable
insertion sort `jsSort` below.  JSON-like runtime values are modelled by
the inductive `JVal`; a JS object is a list of fields in insertion order
(JS objects with string keys enumerate in insertion order).
-/

namespace Signa

/-- JS code-unit comparison of two character lists (the order underlying
`<` and `localeCompare`-on-ASCII for JS strings; shorter strict-prefix
compares smaller). -/
def ltChars : List Char → List Char → Bool
  | _, [] => false
  | [], _ :: _ => true
  | a :: as, b :: bs =>
    if a.toNat < b.toNat then true
    else if b.toNat < a.toNat then false
    else ltChars as bs

/-- JS `<` on strings: code-unit lexicographic order. -/
def strLt (s t : String) : Bool := ltChars s.data t.data

/-- The larger of two strings in JS string order (`b > a ? b : a`). -/
def maxStr (a b : String) : String := if strLt a b then b else a

/-- Stable insertion of `a` into an accumulated sorted list: `a` is placed
after every element `b` with `le b a` (so after earlier-inserted equals —
the order produced by a stable comparison sort). -/
def insSorted (le : α → α → Bool) (a : α) : List α → List α
  | [] => [a]
  | b :: bs => if le b a then b :: insSorted le a bs else a :: b :: bs

/-- Model of JS `Array.prototype.sort` with a consistent comparator:
the (unique) stable sort for the total preorder `le`. -/
def jsSort (le : α → α → Bool) (l : List α) : List α :=
  l.foldl (fun acc a => insSorted le a acc) []

/-! ### JS `Map` with string keys

A JS `Map` keeps its bindings in insertion order; `set` on an existing key
updates the value in place, `get` returns the unique binding.  Modelled as an
association list. -/

/-- `Map.get`: the binding for `k`, if any. -/
def mget (m : List (String × β)) (k : String) : Option β :=
  match m with
  | [] => none
  | (k', v) :: rest => if k' = k then some v else mget rest k

/-- `Map.set`: update in place if `k` is bound, else append. -/
def mset (m : List (String × β)) (k : String) (v : β) : List (String × β) :=
  match m with
  | [] => [(k, v)]
  | (k', v') :: rest =>
    if k' = k then (k', v) :: rest else (k', v') :: mset rest k v

/-- `Map.has`. -/
def mhas (m : List (String × β)) (k : String) : Bool := (mget m k).isSome

namespace Trig

/-- The closed enumeration of trigger kinds
(`lib/types/triggers.ts`, `TriggerType`). -/
inductive TriggerType
  | twitter_follow
  | twitter_followed_by
  | linkedin_connection
  | bio_change
  | stealth_in
  | stealth_out
  | free_agent
deriving DecidableEq, Repr

/-- Stealth direction (`"in" | "out"`). -/
inductive StealthKind
  | into
  | outof
deriving DecidableEq, Repr

/-- `StealthEvent` of `lib/types/triggers.ts`. -/
structure StealthEvent where
  userId : String
  date : String
  type : StealthKind
  linkedinUrl : Option String := none
deriving DecidableEq, Repr

/-- `TriggerQueryResult` of `lib/types/triggers.ts`: one query's sparse set of
people with their most recent dates.  The opaque `connectionData` payload is a
type parameter `γ` — `mergeAndSortTriggerResults` only forwards it. -/
structure TriggerQueryResult (γ : Type) where
  triggerType : TriggerType
  userIds : List String
  dates : List (String × String)
  stealthEvents : Option (List StealthEvent) := none
  connectionData : Option γ := none

/-- `TriggerEntry` of `lib/types/triggers.ts` (the fields the merge emits). -/
structure TriggerEntry where
  userId : String
  triggerType : TriggerType
  date : String
  stealthType : Option StealthKind := none
deriving DecidableEq, Repr

/-- The mutable aggregation state of `mergeAndSortTriggerResults`
(`datesByUserId`, `triggersByUserId`, `entries`, captured `connectionData`). -/
structure MergeState (γ : Type) where
  datesByUserId : List (String × String)
  triggersByUserId : List (String × List TriggerType)
  entries : List TriggerEntry
  connectionData : Option γ

/-- The body of the inner `for (const userId of result.userIds)` loop of
`mergeAndSortTriggerResults` (`triggers.ts` 763-799): update the running
max-date (`!existingDate || date > existingDate`, where a missing or empty
stored date is falsy), append the trigger type if not already present, and
emit one audit entry (with the stealth type looked up by `find`). -/
def stepUser (r : TriggerQueryResult γ) (s : MergeState γ) (u : String) :
    MergeState γ :=
  let date := (mget r.dates u).getD ""
  let dates' :=
    match mget s.datesByUserId u with
    | none => mset s.datesByUserId u date
    | some e =>
      if e = "" || strLt e date then mset s.datesByUserId u date
      else s.datesByUserId
  let trigs0 :=
    if mhas s.triggersByUserId u then s.triggersByUserId
    else mset s.triggersByUserId u []
  let l := (mget trigs0 u).getD []
  let trigs' := if r.triggerType ∈ l then trigs0
    else mset trigs0 u (l ++ [r.triggerType])
  let entry : TriggerEntry :=
    { userId := u, triggerType := r.triggerType, date := date,
      stealthType :=
        match r.stealthEvents with
        | some evs => (evs.find? (fun e => e.userId == u)).map (fun e => e.type)
        | none => none }
  { datesByUserId := dates', triggersByUserId := trigs',
    entries := s.entries ++ [entry], connectionData := s.connectionData }

/-- The body of the outer `for (const result of results)` loop
(`triggers.ts` 757-799): capture `connectionData` if present (last one wins),
then process every `userId` of the result. -/
def stepResult (s : MergeState γ) (r : TriggerQueryResult γ) : MergeState γ :=
  let s1 : MergeState γ :=
    { s with connectionData :=
        match r.connectionData with
        | some cd => some cd
        | none => s.connectionData }
  r.userIds.foldl (stepUser r) s1

/-- The comparator of the final `entries.sort` (`triggers.ts` 802-809) as the
stable-sort relation "`a` may stay before `b`": date descending, ties broken
by `userId` ascending.  (The source compares `new Date(d).getTime()`; on
normalized `YYYY-MM-DD` dates that numeric order coincides with the
code-unit string order used here, as the source's own comment notes.) -/
def entryLe (a b : TriggerEntry) : Bool :=
  if a.date = b.date then !(strLt b.userId a.userId)
  else strLt b.date a.date

/-- `MergedTriggerResult` of `lib/types/triggers.ts` (metadata flattened). -/
structure MergedTriggerResult (γ : Type) where
  entries : List TriggerEntry
  datesByUserId : List (String × String)
  triggersByUserId : List (String × List TriggerType)
  totalTriggersActive : Nat
  connectionData : Option γ

/-- `mergeAndSortTriggerResults` (`triggers.ts` 746-820): fold the
aggregation step over all results, then sort the audit entries. -/
def mergeAndSortTriggerResults (results : List (TriggerQueryResult γ)) :
    MergedTriggerResult γ :=
  let s := results.foldl stepResult ⟨[], [], [], none⟩
  { entries := jsSort entryLe s.entries,
    datesByUserId := s.datesByUserId,
    triggersByUserId := s.triggersByUserId,
    totalTriggersActive := results.length,
    connectionData := s.connectionData }

/-- Observation: appending an element only when absent (the per-person
trigger-type accumulation step). -/
def appendIfNew (l : List TriggerType) (t : TriggerType) : List TriggerType :=
  if t ∈ l then l else l ++ [t]

/-- Observation: the dates under which a person appears across the results,
in processing order — one `r.dates.get(u) || ""` per result listing `u`. -/
def personDates (results : List (TriggerQueryResult γ)) (u : String) :
    List String :=
  results.filterMap (fun r =>
    if u ∈ r.userIds then some ((mget r.dates u).getD "") else none)

/-- Observation: the trigger types under which a person appears across the
results, in processing order (with one occurrence per listing result). -/
def personTrigs (results : List (TriggerQueryResult γ)) (u : String) :
    List TriggerType :=
  results.filterMap (fun r =>
    if u ∈ r.userIds then some r.triggerType else none)

/-- The specification's running example: a `bio_change` result for person
42 dated 2024-01-10 and a `stealth_in` result for persons 42 (2024-01-12)
and 7 (2024-01-01). -/
def exampleResults : List (TriggerQueryResult Unit) :=
  [{ triggerType := .bio_change, userIds := ["42"],
     dates := [("42", "2024-01-10")] },
   { triggerType := .stealth_in, userIds := ["42", "7"],
     dates := [("42", "2024-01-12"), ("7", "2024-01-01")] }]

/-- The date portion of a JS `Date.prototype.toISOString` style string:
`s.split("T")[0]`. -/
def beforeT (s : String) : String := String.mk (s.data.takeWhile (fun c => c != 'T'))

/-- Input domain of `normalizeDate`: a JS string, or a `Date` object
represented by its `toISOString()` rendering (`null`/`undefined` are the
`none` of the surrounding `Option`). -/
inductive DateInput
  | str (s : String)
  | date (iso : String)
deriving DecidableEq, Repr

/-- `normalizeDate` (`triggers.ts` 39-48), with the ambient clock passed as
`nowIso` (the `toISOString()` of `new Date()`).  `if (!date)` is JS
truthiness: `null`, `undefined` and the empty string all take the
"today" branch. -/
def normalizeDate (d : Option DateInput) (nowIso : String) : String :=
  match d with
  | none => beforeT nowIso
  | some (.str s) => if s = "" then beforeT nowIso else beforeT s
  | some (.date iso) => beforeT iso

end Trig

/-! ### JSON-like runtime values

Tool results are dynamically shaped JS values.  `JVal` models them; a JS
object is its field list in insertion order (string keys only, no
duplicates in the modelled domain).  `undefined` is represented by key
absence / the `none` of a surrounding `Option`. -/

inductive JVal where
  | str (s : String)
  | num (n : Int)
  | bool (b : Bool)
  | null
  | arr (elems : List JVal)
  | obj (fields : List (String × JVal))
deriving Repr

mutual

/-- Structural equality of `JVal`s. -/
def JVal.beq : JVal → JVal → Bool
  | .str a, .str b => a == b
  | .num a, .num b => a == b
  | .bool a, .bool b => a == b
  | .null, .null => true
  | .arr a, .arr b => JVal.beqList a b
  | .obj a, .obj b => JVal.beqFields a b
  | _, _ => false

def JVal.beqList : List JVal → List JVal → Bool
  | [], [] => true
  | a :: as, b :: bs => JVal.beq a b && JVal.beqList as bs
  | _, _ => false

def JVal.beqFields : List (String × JVal) → List (String × JVal) → Bool
  | [], [] => true
  | (k, v) :: as, (k₂, v₂) :: bs => k == k₂ && JVal.beq v v₂ && JVal.beqFields as bs
  | _, _ => false

end

/-- JS truthiness of a `JVal` (`NaN` is outside the modelled domain). -/
def truthy : JVal → Bool
  | .str s => s ≠ ""
  | .num n => n ≠ 0
  | .bool b => b
  | .null => false
  | .arr _ => true
  | .obj _ => true

/-- Truthiness of a possibly-`undefined` JS value. -/
def optTruthy : Option JVal → Bool
  | some v => truthy v
  | none => false

/-- JS property read `v[k]` for the string keys the trimmers use (named,
non-numeric keys, which are `undefined` on arrays and primitives). -/
def jget (v : JVal) (k : String) : Option JVal :=
  match v with
  | .obj fs => mget fs k
  | _ => none

/-- The own enumerable fields produced by a JS spread `{...v}`:
the fields of an object, index-keyed elements of an array or string,
nothing for primitives. -/
def spreadFields : JVal → List (String × JVal)
  | .obj fs => fs
  | .arr es => es.enum.map fun p => (toString p.1, p.2)
  | .str s => s.data.enum.map fun p => (toString p.1, .str (String.mk [p.2]))
  | _ => []

/-- JS `(x as number) > k` for the modelled domain (numbers, booleans,
`null`, or an absent field; numeric coercion of strings/objects is outside
the modelled domain). -/
def numGt (v : Option JVal) (k : Int) : Bool :=
  match v with
  | some (.num n) => decide (n > k)
  | some (.bool b) => decide ((if b then (1 : Int) else 0) > k)
  | some .null => decide ((0 : Int) > k)
  | _ => false

/-- JSON string quoting (`"` and `\` escaped; control characters are outside
the modelled domain). -/
def escChar (c : Char) : List Char :=
  if c = '"' then ['\\', '"'] else if c = '\\' then ['\\', '\\'] else [c]

/-- JSON rendering of a string. -/
def quoteJson (s : String) : String :=
  String.mk ('"' :: s.data.foldr (fun c acc => escChar c ++ acc) ['"'])

mutual

/-- `JSON.stringify` on the modelled domain (object fields in insertion
order, no `undefined` members). -/
def stringifyV : JVal → String
  | .str s => quoteJson s
  | .num n => toString n
  | .bool b => if b then "true" else "false"
  | .null => "null"
  | .arr es => "[" ++ stringifyArr es ++ "]"
  | .obj fs => "\x7b" ++ stringifyObj fs ++ "\x7d"

def stringifyArr : List JVal → String
  | [] => ""
  | [e] => stringifyV e
  | e :: e₂ :: rest => stringifyV e ++ "," ++ stringifyArr (e₂ :: rest)

def stringifyObj : List (String × JVal) → String
  | [] => ""
  | [(k, v)] => quoteJson k ++ ":" ++ stringifyV v
  | (k, v) :: f₂ :: rest =>
    quoteJson k ++ ":" ++ stringifyV v ++ "," ++ stringifyObj (f₂ :: rest)

end

mutual

/-- JS template interpolation of a value into a string (arrays render via
`Array.prototype.join(",")`, under which `null` elements become empty). -/
def toTemplate : JVal → String
  | .str s => s
  | .num n => toString n
  | .bool b => if b then "true" else "false"
  | .null => "null"
  | .arr es => String.intercalate "," (toTemplateList es)
  | .obj _ => "[object Object]"

def toTemplateList : List JVal → List String
  | [] => []
  | .null :: rest => "" :: toTemplateList rest
  | e :: rest => toTemplate e :: toTemplateList rest

end

/-- JS template interpolation of a possibly-`undefined` value. -/
def optTemplate : Option JVal → String
  | some v => toTemplate v
  | none => "undefined"

/-- JS `s.slice(0, n)` for `n ≥ 0`. -/
def strTake (s : String) (n : Nat) : String := String.mk (s.data.take n)

namespace Ctx

/-- Message roles (`session.ts`, `MessageRole`). -/
inductive Role
  | user
  | assistant
  | system
  | tool
deriving DecidableEq, Repr

/-- Tool event kinds. -/
inductive EventKind
  | tool_call
  | tool_result
deriving DecidableEq, Repr

/-- `ToolEvent` of `session.ts`. -/
structure ToolEvent where
  type : EventKind
  tool : String
  args : Option JVal := none
  result : Option JVal := none
  toolCallId : Option String := none
  trimmed : Option Bool := none

/-- `InternalMessage` of `session.ts` (content is opaque to every modelled
code path; a plain string suffices). -/
structure InternalMessage where
  role : Role
  content : String
  toolEvents : Option (List ToolEvent) := none

/-- The SDK `CoreMessage` as far as this core reads or writes it. -/
structure CoreMessage where
  role : Role
  content : String
deriving DecidableEq, Repr

/-- `ContextConfig` of `config.ts` (defaults: `maxTurns = 8`,
`summarizeAfter = 12`, `toolTrimEnabled`, `maxToolPayloadChars = 8000`,
`summaryMaxTokens = 400`, metrics on). -/
structure ContextConfig where
  maxTurns : Nat
  summarizeAfter : Nat
  toolTrimEnabled : Bool
  maxToolPayloadChars : Nat
  summaryModel : String
  summaryMaxTokens : Nat
  metricsEnabled : Bool

/-- The default configuration values (env overrides at their defaults). -/
def defaultContextConfig : ContextConfig :=
  { maxTurns := 8, summarizeAfter := 12, toolTrimEnabled := true,
    maxToolPayloadChars := 8000, summaryModel := "gpt-4o-mini",
    summaryMaxTokens := 400, metricsEnabled := true }

/-- `trimFindPeopleResult` (`session.ts` 234-255): cap `results` at 50 and
compress each profile; when under the cap the profiles are still compressed
(the object is rebuilt either way). -/
def trimFindPeopleResult (result : JVal) : JVal :=
  match jget result "results" with
  | some (.arr rs) =>
    if rs.length > 50 then
      .obj (mset (mset (mset (spreadFields result)
        "results" (.arr ((rs.take 50).map compressProfile)))
        "trimmed" (.bool true))
        "original_count" (.num rs.length))
    else
      .obj (mset (spreadFields result) "results" (.arr (rs.map compressProfile)))
  | _ => result
  where
    /-- `compressProfile` (`session.ts` 360-398): field allowlist plus a
    synthesized `signal_summary`. -/
    compressProfile (profile : JVal) : JVal :=
      match profile with
      | .obj p =>
        let essential := ["user_id", "name", "screen_name", "headline",
          "trending_score", "followed_by_count", "stealth_status",
          "recent_bio_change", "profile_url"]
        let compressed := essential.foldl (fun acc k =>
          match mget p k with
          | some v => acc ++ [(k, v)]
          | none => acc) []
        let signals : List String :=
          (if optTruthy (mget p "recent_bio_change") then ["bio changed"] else [])
          ++ (if optTruthy (mget p "stealth_status") then
                ["stealth: " ++ optTemplate (mget p "stealth_status")] else [])
          ++ (if numGt (mget p "trending_score") 7 then ["trending"] else [])
          ++ (if numGt (mget p "total_signals") 5 then
                [optTemplate (mget p "total_signals") ++ " signals"] else [])
        let compressed' :=
          if signals.length > 0 then
            mset compressed "signal_summary" (.str (String.intercalate ", " signals))
          else compressed
        .obj compressed'
      | _ => .obj []

/-- `compressProfile` at top level (the arrow-function field of the class,
shared by the find-people, analyze-network and group-members trimmers). -/
def compressProfile : JVal → JVal := trimFindPeopleResult.compressProfile

/-- `trimPersonDetailsResult` (`session.ts` 260-281): truncate the four
array-valued profile fields to their first 3 elements. -/
def trimPersonDetailsResult (result : JVal) : JVal :=
  match jget result "profile" with
  | some profile =>
    if truthy profile then
      let limited := ["sectors", "locations", "stages", "companies"].foldl
        limitField (spreadFields profile)
      .obj (mset (spreadFields result) "profile" (.obj limited))
    else result
  | none => result
  where
    /-- One step of the array-field truncation loop: if the field holds an
    array, keep its first 3 elements. -/
    limitField (acc : List (String × JVal)) (f : String) :
        List (String × JVal) :=
      match mget acc f with
      | some (.arr xs) => mset acc f (.arr (xs.take 3))
      | _ => acc

/-- `trimAnalyzeNetworkResult` (`session.ts` 286-302): cap `profiles` at 50
and compress, only when over the cap. -/
def trimAnalyzeNetworkResult (result : JVal) : JVal :=
  match jget result "profiles" with
  | some (.arr ps) =>
    if ps.length > 50 then
      .obj (mset (mset (mset (spreadFields result)
        "profiles" (.arr ((ps.take 50).map compressProfile)))
        "trimmed" (.bool true))
        "original_count" (.num ps.length))
    else result
  | _ => result

/-- `trimFeedSignalsResult` (`session.ts` 307-322): cap `signals` at 50,
only when over the cap (no per-item compression). -/
def trimFeedSignalsResult (result : JVal) : JVal :=
  match jget result "signals" with
  | some (.arr ss) =>
    if ss.length > 50 then
      .obj (mset (mset (mset (spreadFields result)
        "signals" (.arr (ss.take 50)))
        "trimmed" (.bool true))
        "original_count" (.num ss.length))
    else result
  | _ => result

/-- `trimGroupMembersResult` (`session.ts` 327-341): cap `members` at 50 and
compress, only when over the cap. -/
def trimGroupMembersResult (result : JVal) : JVal :=
  match jget result "members" with
  | some (.arr ms) =>
    if ms.length > 50 then
      .obj (mset (mset (mset (spreadFields result)
        "members" (.arr ((ms.take 50).map compressProfile)))
        "trimmed" (.bool true))
        "original_count" (.num ms.length))
    else result
  | _ => result

/-- `genericTrim` (`session.ts` 346-358): unknown tools keep results whose
serialization is within `maxToolPayloadChars`, else get replaced by a
truncation wrapper. -/
def genericTrim (cfg : ContextConfig) (result : JVal) : JVal :=
  let jsonStr := stringifyV result
  if jsonStr.length ≤ cfg.maxToolPayloadChars then result
  else
    .obj [("raw_output", .str (strTake jsonStr cfg.maxToolPayloadChars)),
          ("truncated", .bool true),
          ("original_length", .num jsonStr.length)]

/-- `trimToolResult` (`session.ts` 211-232): non-objects pass through
(`typeof` admits arrays, which every branch then leaves unchanged except the
generic one); known tools dispatch to their trimmer, unknown tools to
`genericTrim`. -/
def trimToolResult (cfg : ContextConfig) (toolName : String) (result : JVal) :
    JVal :=
  match result with
  | .obj _ | .arr _ =>
    if toolName = "find_people" then trimFindPeopleResult result
    else if toolName = "get_person_details" then trimPersonDetailsResult result
    else if toolName = "analyze_network" then trimAnalyzeNetworkResult result
    else if toolName = "get_feed_signals" then trimFeedSignalsResult result
    else if toolName = "get_group_members" then trimGroupMembersResult result
    else genericTrim cfg result
  | _ => result

/-- One tool event inside `applyToolTrimming` (`session.ts` 190-201): only
truthy `tool_result` payloads are trimmed; a changed payload marks the event
`trimmed` and counts toward the per-pass counter.  (The source compares the
old and new payload by JS reference; value inequality is used here — the
distinction is unexercised by the modelled claims, whose histories carry no
tool events.) -/
def trimEvent (cfg : ContextConfig) (e : ToolEvent) : ToolEvent × Bool :=
  if e.type = EventKind.tool_result ∧ optTruthy e.result then
    match e.result with
    | some r =>
      let t := trimToolResult cfg e.tool r
      if JVal.beq t r then (e, false)
      else ({ e with result := some t, trimmed := some true }, true)
    | none => (e, false)
  else (e, false)

/-- `applyToolTrimming` (`session.ts` 185-206): map over the recent bucket,
touching only assistant messages that carry tool events; returns the new
list and the number of trims. -/
def applyToolTrimming (cfg : ContextConfig) (messages : List InternalMessage) :
    List InternalMessage × Nat :=
  messages.foldl (trimStep cfg) ([], 0)
  where
    /-- One message of the pass (`messages.map` body plus the shared trim
    counter). -/
    trimStep (cfg : ContextConfig) (acc : List InternalMessage × Nat)
        (msg : InternalMessage) : List InternalMessage × Nat :=
      match msg.toolEvents, msg.role with
      | some evs, Role.assistant =>
        let processed := evs.map (trimEvent cfg)
        (acc.1 ++ [{ msg with toolEvents := some (processed.map Prod.fst) }],
         acc.2 + (processed.filter Prod.snd).length)
      | _, _ => (acc.1 ++ [msg], acc.2)

/-- `countUserTurns` (`session.ts` 499-501). -/
def countUserTurns (messages : List InternalMessage) : Nat :=
  (messages.filter (fun m => m.role = Role.user)).length

/-- The indices of the user-role messages, in order (the `userIndices`
array built by the scan at `session.ts` 152-158). -/
def userIndices : List InternalMessage → List Nat
  | [] => []
  | m :: ms =>
    if m.role = Role.user then 0 :: (userIndices ms).map (· + 1)
    else (userIndices ms).map (· + 1)

/-- `applyTurnBasedTrimming` (`session.ts` 145-180): within the turn limit
everything is recent; otherwise the recent bucket is all system messages
followed by the tail from the cutover user message, and the older bucket is
the non-system remainder before the cutover.  When `maxTurns = 0` the
source's `userIndices[turnCount - 0]` is `undefined`, and
`slice(0, undefined)` / `slice(undefined)` both produce the whole array —
the `none` arm below. -/
def applyTurnBasedTrimming (cfg : ContextConfig)
    (messages : List InternalMessage) :
    List InternalMessage × List InternalMessage :=
  let uIdx := userIndices messages
  let turnCount := uIdx.length
  if turnCount ≤ cfg.maxTurns then (messages, [])
  else
    let systemMessages := messages.filter (fun m => m.role = Role.system)
    match uIdx[turnCount - cfg.maxTurns]? with
    | some startIndex =>
      (systemMessages ++ messages.drop startIndex,
       (messages.take startIndex).filter (fun m => m.role ≠ Role.system))
    | none =>
      (systemMessages ++ messages,
       messages.filter (fun m => m.role ≠ Role.system))

/-- The external summarizer (`summarizeContext`, `session.ts` 460-480):
an oracle from the older bucket to the generated text, `none` on failure. -/
def SummaryOracle : Type := List InternalMessage → Option String

/-- `injectSummaryIfNeeded` (`session.ts` 403-455): returns the final list,
whether a summary was added, and the new `lastSummaryTurn` watermark.
`if (!summary)` is JS truthiness, so an empty generated text is also a
failure. -/
def injectSummaryIfNeeded (cfg : ContextConfig) (lastSummaryTurn : Nat)
    (oracle : SummaryOracle) (recent older raw : List InternalMessage) :
    List InternalMessage × Bool × Nat :=
  if older.isEmpty then (recent, false, lastSummaryTurn)
  else if cfg.summarizeAfter = 0 then (recent, false, lastSummaryTurn)
  else
    let totalTurns := countUserTurns raw
    if totalTurns ≤ cfg.summarizeAfter then (recent, false, lastSummaryTurn)
    else if totalTurns ≤ lastSummaryTurn then (recent, false, lastSummaryTurn)
    else
      match oracle older with
      | none => (recent, false, lastSummaryTurn)
      | some summary =>
        if summary = "" then (recent, false, lastSummaryTurn)
        else
          let summaryMessages : List InternalMessage :=
            [{ role := Role.user,
               content := "Summarize our conversation so far for context." },
             { role := Role.assistant, content := summary }]
          let systemMessages := recent.filter (fun m => m.role = Role.system)
          let nonSystemRecent := recent.filter (fun m => m.role ≠ Role.system)
          (systemMessages ++ summaryMessages ++ nonSystemRecent, true, totalTurns)

/-- `toSdkFormat` (`session.ts` 506-521): both branches produce
`{role, content}`. -/
def toSdkFormat (messages : List InternalMessage) : List CoreMessage :=
  messages.map (fun m => { role := m.role, content := m.content })

/-- The mutable fields of a `ContextSession` (`session.ts` 57-66). -/
structure SessionState where
  config : ContextConfig
  rawMessages : List InternalMessage
  optimizedMessages : List CoreMessage
  contextDirty : Bool
  lastSummaryTurn : Nat
  summaryAddedLastRefresh : Bool
  toolTrimCountLastRefresh : Nat

/-- A freshly constructed session. -/
def initialSession (cfg : ContextConfig) : SessionState :=
  { config := cfg, rawMessages := [], optimizedMessages := [],
    contextDirty := true, lastSummaryTurn := 0,
    summaryAddedLastRefresh := false, toolTrimCountLastRefresh := 0 }

/-- `addMessages` (`session.ts` 82-90): stores only each input's role and
content (any tool events on the input are discarded) and marks the cache
dirty. -/
def addMessages (msgs : List CoreMessage) (s : SessionState) : SessionState :=
  { s with
    rawMessages := s.rawMessages ++
      msgs.map (fun m => { role := m.role, content := m.content }),
    contextDirty := true }

/-- `refreshOptimizedCache` (`session.ts` 106-140): empty history
short-circuits (without resetting the per-refresh flags); otherwise reset
flags, window, trim, inject, convert. -/
def refreshOptimizedCache (oracle : SummaryOracle) (s : SessionState) :
    SessionState :=
  if s.rawMessages.isEmpty then { s with optimizedMessages := [] }
  else
    let ro := applyTurnBasedTrimming s.config s.rawMessages
    let tt := if s.config.toolTrimEnabled then applyToolTrimming s.config ro.1
      else (ro.1, 0)
    let inj := injectSummaryIfNeeded s.config s.lastSummaryTurn oracle
      tt.1 ro.2 s.rawMessages
    { s with optimizedMessages := toSdkFormat inj.1,
             summaryAddedLastRefresh := inj.2.1,
             lastSummaryTurn := inj.2.2,
             toolTrimCountLastRefresh := tt.2 }

/-- `getOptimizedMessages` (`session.ts` 95-103): serve the cache when
clean, else refresh and mark clean. -/
def getOptimizedMessages (oracle : SummaryOracle) (s : SessionState) :
    List CoreMessage × SessionState :=
  if s.contextDirty then
    let s' := refreshOptimizedCache oracle s
    (s'.optimizedMessages, { s' with contextDirty := false })
  else (s.optimizedMessages, s)

/-- `ContextMetricsData` as reported by `getMetrics` (`session.ts` 545-555). -/
structure ContextMetricsData where
  rawMessageCount : Nat
  optimizedMessageCount : Nat
  turnCount : Nat
  toolTrimCount : Nat
  summaryAdded : Bool
deriving DecidableEq, Repr

/-- `getMetrics` (`session.ts` 545-555). -/
def getMetrics (s : SessionState) : ContextMetricsData :=
  { rawMessageCount := s.rawMessages.length,
    optimizedMessageCount := s.optimizedMessages.length,
    turnCount := countUserTurns s.rawMessages,
    toolTrimCount := s.toolTrimCountLastRefresh,
    summaryAdded := s.summaryAddedLastRefresh }

/-- The session states reachable through the public interface
(`addMessages` / `getOptimizedMessages`, the summarizer outcome chosen
adversarially at each call). -/
inductive Reachable (cfg : ContextConfig) : SessionState → Prop
  | init : Reachable cfg (initialSession cfg)
  | add (msgs : List CoreMessage) {s : SessionState} :
      Reachable cfg s → Reachable cfg (addMessages msgs s)
  | opt (oracle : SummaryOracle) {s : SessionState} :
      Reachable cfg s → Reachable cfg (getOptimizedMessages oracle s).2

end Ctx

namespace Rank

/-- The fields of `SignalContext` read by the scorer
(`signal-enrichment` service). -/
structure SignalContext where
  followedByCount : Nat
  recentBioChange : Option String
  totalSignals : Nat
deriving DecidableEq, Repr

/-- A profile enriched with signal context, as the ranker sees it. -/
structure ProfileWithSignals where
  user_id : String
  signalContext : SignalContext
  relevanceScore : Option Nat := none
deriving DecidableEq, Repr

/-- `RankingOptions` with the source defaults. -/
structure RankingOptions where
  boostNetwork : Bool := true
  boostLikedSimilar : Bool := true
deriving DecidableEq, Repr

/-- Modelled from the spec: `getUserLikedSignalIds`
(`lib/repositories/postgres/network`, not present in the sources) — a
degradable liked-set lookup: on failure the pipeline continues as if
nothing is liked (spec §4.3/§7), so a failed outcome yields the empty
set. -/
def getUserLikedSignalIds (outcome : Except Unit (List String)) :
    List String :=
  match outcome with
  | .ok ids => ids
  | .error _ => []

/-- The score assignment inside `rankByRelevance`: network-proximity tier,
flat bio-change bonus, capped signal-count contribution, liked bonus. -/
def scoreOf (opts : RankingOptions) (likedIds : List String)
    (p : ProfileWithSignals) : Nat :=
  (if opts.boostNetwork then
    (if p.signalContext.followedByCount ≥ 5 then 50
     else if p.signalContext.followedByCount ≥ 3 then 35
     else if p.signalContext.followedByCount ≥ 1 then 20
     else 0)
   else 0)
  + (if p.signalContext.recentBioChange.isSome then 20 else 0)
  + min (p.signalContext.totalSignals * 2) 20
  + (if opts.boostLikedSimilar ∧ p.user_id ∈ likedIds then 10 else 0)

/-- The scoring function exactly as the specification words it: 0 points
for zero network followers, 20 for 1 or 2, 35 for 3 or 4, 50 for 5 or more;
plus 20 for a recent bio change; plus `min(2 × signal count, 20)`; plus 10
when the candidate is in the liked set. -/
def specScore (liked : List String) (p : ProfileWithSignals) : Nat :=
  (if p.signalContext.followedByCount = 0 then 0
   else if p.signalContext.followedByCount = 1 ∨
           p.signalContext.followedByCount = 2 then 20
   else if p.signalContext.followedByCount = 3 ∨
           p.signalContext.followedByCount = 4 then 35
   else 50)
  + (if p.signalContext.recentBioChange.isSome then 20 else 0)
  + min (2 * p.signalContext.totalSignals) 20
  + (if p.user_id ∈ liked then 10 else 0)

/-- The comparator of the final score sort
(`(b.relevanceScore || 0) - (a.relevanceScore || 0)`) as the stable-sort
relation "`a` may stay before `b`". -/
def rankLe (a b : ProfileWithSignals) : Bool :=
  b.relevanceScore.getD 0 ≤ a.relevanceScore.getD 0

/-- `rankByRelevance`: score each profile and sort descending (stable).
The liked-set lookup outcome is a parameter; by the spec-modelled
`getUserLikedSignalIds` its failure degrades to the empty liked set, so the
function always returns a result (`Except.ok`). -/
def rankByRelevance (profiles : List ProfileWithSignals)
    (likedOutcome : Except Unit (List String)) (opts : RankingOptions) :
    Except Unit (List ProfileWithSignals) :=
  if profiles.isEmpty then .ok []
  else
    let likedIds :=
      if opts.boostLikedSimilar then getUserLikedSignalIds likedOutcome else []
    let scored := profiles.map (fun p =>
      { p with relevanceScore := some (scoreOf opts likedIds p) })
    .ok (jsSort rankLe scored)

end Rank

/-! ### Helper lemmas -/

theorem ltChars_irrefl (l : List Char) : ltChars l l = false := by
  induction l with
  | nil => rfl
  | cons a as ih => simp [ltChars, ih]

theorem ltChars_asymm {l₁ l₂ : List Char} (h : ltChars l₁ l₂ = true) :
    ltChars l₂ l₁ = false := by
  induction l₁ generalizing l₂ with
  | nil =>
    cases l₂ with
    | nil => simp [ltChars] at h
    | cons b bs => rfl
  | cons a as ih =>
    cases l₂ with
    | nil => simp [ltChars] at h
    | cons b bs =>
      by_cases hab : a.toNat < b.toNat
      · have hba : ¬ b.toNat < a.toNat := by omega
        simp [ltChars, hab, hba]
      · by_cases hba : b.toNat < a.toNat
        · simp [ltChars, hab, hba] at h
        · have : ltChars as bs = true := by simpa [ltChars, hab, hba] using h
          simp [ltChars, hab, hba, ih this]

theorem ltChars_trans {l₁ l₂ l₃ : List Char}
    (h₁ : ltChars l₁ l₂ = true) (h₂ : ltChars l₂ l₃ = true) :
    ltChars l₁ l₃ = true := by
  induction l₁ generalizing l₂ l₃ with
  | nil =>
    cases l₃ with
    | nil =>
      cases l₂ with
      | nil => simp [ltChars] at h₁
      | cons b bs => simp [ltChars] at h₂
    | cons c cs => rfl
  | cons a as ih =>
    cases l₂ with
    | nil => simp [ltChars] at h₁
    | cons b bs =>
      cases l₃ with
      | nil => simp [ltChars] at h₂
      | cons c cs =>
        by_cases hab : a.toNat < b.toNat
        · by_cases hbc : b.toNat < c.toNat
          · have hac : a.toNat < c.toNat := by omega
            simp [ltChars, hac]
          · by_cases hcb : c.toNat < b.toNat
            · simp [ltChars, hbc, hcb] at h₂
            · have hbc' : b.toNat = c.toNat := by omega
              have hac : a.toNat < c.toNat := by omega
              simp [ltChars, hac]
        · by_cases hba : b.toNat < a.toNat
          · simp [ltChars, hab, hba] at h₁
          · have hab' : a.toNat = b.toNat := by omega
            have h₁' : ltChars as bs = true := by
              simpa [ltChars, hab, hba] using h₁
            by_cases hbc : b.toNat < c.toNat
            · have hac : a.toNat < c.toNat := by omega
              simp [ltChars, hac]
            · by_cases hcb : c.toNat < b.toNat
              · simp [ltChars, hbc, hcb] at h₂
              · have h₂' : ltChars bs cs = true := by
                  simpa [ltChars, hbc, hcb] using h₂
                have hac : ¬ a.toNat < c.toNat := by omega
                have hca : ¬ c.toNat < a.toNat := by omega
                simp [ltChars, hac, hca, ih h₁' h₂']

theorem ltChars_connex {l₁ l₂ : List Char}
    (h₁ : ltChars l₁ l₂ = false) (h₂ : ltChars l₂ l₁ = false) : l₁ = l₂ := by
  induction l₁ generalizing l₂ with
  | nil =>
    cases l₂ with
    | nil => rfl
    | cons b bs => simp [ltChars] at h₁
  | cons a as ih =>
    cases l₂ with
    | nil => simp [ltChars] at h₂
    | cons b bs =>
      by_cases hab : a.toNat < b.toNat
      · simp [ltChars, hab] at h₁
      · by_cases hba : b.toNat < a.toNat
        · simp [ltChars, hba] at h₂
        · have hn : a.toNat = b.toNat := by omega
          have ha : a = b := Char.ext (by
            apply UInt32.ext
            exact hn)
          have h₁' : ltChars as bs = false := by
            simpa [ltChars, hab, hba] using h₁
          have h₂' : ltChars bs as = false := by
            simpa [ltChars, hba, hab] using h₂
          rw [ha, ih h₁' h₂']

theorem strLt_irrefl (s : String) : strLt s s = false := ltChars_irrefl s.data

theorem strLt_asymm {s t : String} (h : strLt s t = true) : strLt t s = false :=
  ltChars_asymm h

theorem strLt_trans {s t u : String} (h₁ : strLt s t = true)
    (h₂ : strLt t u = true) : strLt s u = true := ltChars_trans h₁ h₂

theorem strLt_connex {s t : String} (h₁ : strLt s t = false)
    (h₂ : strLt t s = false) : s = t := by
  cases s; cases t
  exact congrArg String.mk (ltChars_connex h₁ h₂)

theorem maxStr_comm (a b : String) : maxStr a b = maxStr b a := by
  unfold maxStr
  by_cases h : strLt a b = true
  · simp [h, strLt_asymm h]
  · by_cases h' : strLt b a = true
    · simp [h, h']
    · have heq := strLt_connex (by simpa using h) (by simpa using h')
      simp [heq]

theorem maxStr_assoc (a b c : String) :
    maxStr (maxStr a b) c = maxStr a (maxStr b c) := by
  unfold maxStr
  cases hab : strLt a b with
  | true =>
    simp only [if_true]
    cases hbc : strLt b c with
    | true => simp [strLt_trans hab hbc]
    | false => simp [hab]
  | false =>
    simp only [Bool.false_eq_true, if_false]
    cases hbc : strLt b c with
    | true => simp [hab, hbc]
    | false =>
      simp only [Bool.false_eq_true, if_false, hab]
      have hac : strLt a c = false := by
        cases hac : strLt a c with
        | true =>
          cases hcb : strLt c b with
          | true =>
            rw [strLt_trans hac hcb] at hab
            exact absurd hab (by simp)
          | false =>
            have hbe := strLt_connex hbc hcb
            rw [hbe] at hab
            rw [hac] at hab
            exact absurd hab (by simp)
        | false => rfl
      simp [hac]

theorem insSorted_perm (le : α → α → Bool) (a : α) (l : List α) :
    (insSorted le a l).Perm (a :: l) := by
  induction l with
  | nil => exact List.Perm.refl _
  | cons b bs ih =>
    by_cases h : le b a = true
    · simp only [insSorted, h, if_true]
      exact ((ih.cons b).trans (List.Perm.swap a b bs)).symm.symm
    · simp [insSorted, h]

theorem jsSort_perm (le : α → α → Bool) (l : List α) : (jsSort le l).Perm l := by
  suffices h : ∀ acc : List α,
      (l.foldl (fun acc a => insSorted le a acc) acc).Perm (acc ++ l) by
    simpa using h []
  induction l with
  | nil => intro acc; simp
  | cons a as ih =>
    intro acc
    have h₁ := ih (insSorted le a acc)
    have h₂ : (insSorted le a acc ++ as).Perm (acc ++ a :: as) := by
      have := (insSorted_perm le a acc).append_right as
      refine this.trans ?_
      simpa using (@List.perm_middle _ a acc as).symm
    simpa using h₁.trans h₂

theorem insSorted_pairwise (le : α → α → Bool)
    (htot : ∀ a b, le a b = true ∨ le b a = true)
    (htrans : ∀ a b c, le a b = true → le b c = true → le a c = true)
    (a : α) (l : List α) (h : l.Pairwise (fun x y => le x y = true)) :
    (insSorted le a l).Pairwise (fun x y => le x y = true) := by
  induction l with
  | nil => simp [insSorted]
  | cons b bs ih =>
    rcases List.pairwise_cons.mp h with ⟨hb, hbs⟩
    cases hba : le b a with
    | true =>
      simp only [insSorted, hba, if_true]
      refine List.pairwise_cons.mpr ⟨?_, ih hbs⟩
      intro x hx
      have hperm := insSorted_perm le a bs
      have hx' : x ∈ a :: bs := hperm.mem_iff.mp hx
      rcases List.mem_cons.mp hx' with rfl | hx''
      · exact hba
      · exact hb x hx''
    | false =>
      have hab : le a b = true := by
        rcases htot a b with h' | h'
        · exact h'
        · rw [h'] at hba; exact absurd hba (by simp)
      simp only [insSorted, hba, Bool.false_eq_true, if_false]
      refine List.pairwise_cons.mpr ⟨?_, h⟩
      intro x hx
      rcases List.mem_cons.mp hx with rfl | hx'
      · exact hab
      · exact htrans a b x hab (hb x hx')

theorem jsSort_pairwise (le : α → α → Bool)
    (htot : ∀ a b, le a b = true ∨ le b a = true)
    (htrans : ∀ a b c, le a b = true → le b c = true → le a c = true)
    (l : List α) :
    (jsSort le l).Pairwise (fun x y => le x y = true) := by
  suffices h : ∀ acc : List α, acc.Pairwise (fun x y => le x y = true) →
      (l.foldl (fun acc a => insSorted le a acc) acc).Pairwise
        (fun x y => le x y = true) by
    exact h [] (by simp)
  induction l with
  | nil => intro acc hacc; simpa using hacc
  | cons a as ih =>
    intro acc hacc
    exact ih (insSorted le a acc) (insSorted_pairwise le htot htrans a acc hacc)

theorem mget_mset_self (m : List (String × β)) (k : String) (v : β) :
    mget (mset m k v) k = some v := by
  induction m with
  | nil => simp [mget, mset]
  | cons kv rest ih =>
    obtain ⟨k', v'⟩ := kv
    by_cases h : k' = k
    · simp [mget, mset, h]
    · simp [mget, mset, h, ih]

theorem mget_mset_ne (m : List (String × β)) {k k₀ : String} (v : β)
    (h : k ≠ k₀) : mget (mset m k v) k₀ = mget m k₀ := by
  induction m with
  | nil => simp [mget, mset, h]
  | cons kv rest ih =>
    obtain ⟨k', v'⟩ := kv
    by_cases h' : k' = k
    · subst h'; simp [mget, mset, h]
    · simp [mget, mset, h', ih]

theorem mset_keys (m : List (String × β)) (k : String) (v : β) :
    (mset m k v).map Prod.fst =
      if mhas m k then m.map Prod.fst else m.map Prod.fst ++ [k] := by
  induction m with
  | nil => simp [mset, mhas, mget]
  | cons kv rest ih =>
    obtain ⟨k', v'⟩ := kv
    by_cases h : k' = k
    · simp [mset, mhas, mget, h]
    · have ih' := ih
      unfold mhas at ih'
      by_cases h₂ : (mget rest k).isSome
      · simp [h₂] at ih'
        simp [mset, mhas, mget, h, h₂, ih']
      · simp [h₂] at ih'
        simp [mset, mhas, mget, h, h₂, ih']

theorem mset_self {m : List (String × β)} {k : String} {v : β}
    (h : mget m k = some v) : mset m k v = m := by
  induction m with
  | nil => simp [mget] at h
  | cons kv rest ih =>
    obtain ⟨k', v'⟩ := kv
    by_cases hk : k' = k
    · subst hk
      simp [mget] at h
      simp [mset, h]
    · simp [mget, hk] at h
      simp [mset, hk, ih h]

theorem mget_eq_none_iff (m : List (String × β)) (k : String) :
    mget m k = none ↔ k ∉ m.map Prod.fst := by
  induction m with
  | nil => simp [mget]
  | cons kv rest ih =>
    obtain ⟨k', v'⟩ := kv
    by_cases h : k' = k
    · subst h; simp [mget]
    · simp only [mget, h, if_false, List.map_cons, List.mem_cons]
      rw [ih]
      constructor
      · intro hnone hor
        rcases hor with he | hm
        · exact h he.symm
        · exact hnone hm
      · intro hnot hm
        exact hnot (Or.inr hm)

theorem maxStr_idem (a : String) : maxStr a a = a := by
  simp [maxStr, strLt_irrefl]

theorem maxStr_bot (d : String) : maxStr "" d = d := by
  unfold maxStr
  cases h : strLt "" d with
  | true => rfl
  | false =>
    cases d with
    | mk data =>
      cases data with
      | nil => rfl
      | cons c cs => simp [strLt, ltChars] at h

theorem strLt_empty_false {x : String} (h : strLt "" x = false) : x = "" := by
  cases x with
  | mk data =>
    cases data with
    | nil => rfl
    | cons c cs => simp [strLt, ltChars] at h

theorem strLt_false_trans {a b c : String} (h₁ : strLt a b = false)
    (h₂ : strLt b c = false) : strLt a c = false := by
  cases hac : strLt a c with
  | false => rfl
  | true =>
    cases hcb : strLt c b with
    | true =>
      rw [strLt_trans hac hcb] at h₁
      exact absurd h₁ (by simp)
    | false =>
      have hbc := strLt_connex h₂ hcb
      rw [← hbc] at hac
      rw [hac] at h₁
      exact absurd h₁ (by simp)

theorem strLt_maxStr_left (a b : String) : strLt (maxStr a b) a = false := by
  unfold maxStr
  cases h : strLt a b with
  | true => simp [strLt_asymm h]
  | false => simp [strLt_irrefl]

theorem strLt_maxStr_right (a b : String) : strLt (maxStr a b) b = false := by
  unfold maxStr
  cases h : strLt a b with
  | true => simp [strLt_irrefl]
  | false => simp [h]

theorem nodup_mset_keys {m : List (String × β)} (k : String) (v : β)
    (h : (m.map Prod.fst).Nodup) : ((mset m k v).map Prod.fst).Nodup := by
  rw [mset_keys]
  by_cases hk : mhas m k
  · rw [if_pos hk]; exact h
  · rw [if_neg hk]
    have hnotin : k ∉ m.map Prod.fst := by
      rw [← mget_eq_none_iff]
      unfold mhas at hk
      simpa using hk
    simp [List.nodup_append, h, hnotin]

theorem foldl_maxStr_notLt (a : String) (ds : List String) :
    strLt (ds.foldl maxStr a) a = false ∧
    ∀ x ∈ ds, strLt (ds.foldl maxStr a) x = false := by
  induction ds generalizing a with
  | nil => exact ⟨strLt_irrefl a, by simp⟩
  | cons d ds ih =>
    rw [List.foldl_cons]
    obtain ⟨h₁, h₂⟩ := ih (maxStr a d)
    refine ⟨strLt_false_trans h₁ (strLt_maxStr_left a d), ?_⟩
    intro x hx
    rcases List.mem_cons.mp hx with rfl | hx'
    · exact strLt_false_trans h₁ (strLt_maxStr_right a x)
    · exact h₂ x hx'

theorem foldl_maxStr_mem (a : String) (ds : List String) :
    ds.foldl maxStr a = a ∨ ds.foldl maxStr a ∈ ds := by
  induction ds generalizing a with
  | nil => exact Or.inl rfl
  | cons d ds ih =>
    rw [List.foldl_cons]
    rcases ih (maxStr a d) with h | h
    · rw [h]
      unfold maxStr
      cases hlt : strLt a d with
      | true => exact Or.inr (by simp)
      | false => exact Or.inl (by simp)
    · exact Or.inr (by simp [h])

namespace Trig

theorem appendIfNew_mem (l : List TriggerType) (t x : TriggerType) :
    x ∈ appendIfNew l t ↔ x ∈ l ∨ x = t := by
  unfold appendIfNew
  by_cases h : t ∈ l
  · rw [if_pos h]
    constructor
    · exact Or.inl
    · intro hx
      rcases hx with hx | rfl
      · exact hx
      · exact h
  · rw [if_neg h]
    simp

theorem appendIfNew_nodup (l : List TriggerType) (t : TriggerType)
    (h : l.Nodup) : (appendIfNew l t).Nodup := by
  unfold appendIfNew
  by_cases ht : t ∈ l
  · rw [if_pos ht]; exact h
  · rw [if_neg ht]
    simp [List.nodup_append, h, ht]

theorem foldl_appendIfNew_mem (ts : List TriggerType) (l : List TriggerType)
    (x : TriggerType) :
    x ∈ ts.foldl appendIfNew l ↔ x ∈ l ∨ x ∈ ts := by
  induction ts generalizing l with
  | nil => simp
  | cons t ts ih =>
    rw [List.foldl_cons, ih, appendIfNew_mem]
    constructor
    · intro h
      rcases h with (h | rfl) | h
      · exact Or.inl h
      · exact Or.inr (by simp)
      · exact Or.inr (by simp [h])
    · intro h
      rcases h with h | h
      · exact Or.inl (Or.inl h)
      · rcases List.mem_cons.mp h with rfl | h'
        · exact Or.inl (Or.inr rfl)
        · exact Or.inr h'

theorem foldl_appendIfNew_nodup (ts : List TriggerType)
    (l : List TriggerType) (h : l.Nodup) :
    (ts.foldl appendIfNew l).Nodup := by
  induction ts generalizing l with
  | nil => exact h
  | cons t ts ih =>
    rw [List.foldl_cons]
    exact ih _ (appendIfNew_nodup l t h)

theorem appendIfNew_idem (l : List TriggerType) (t : TriggerType) :
    appendIfNew (appendIfNew l t) t = appendIfNew l t := by
  unfold appendIfNew
  by_cases h : t ∈ l
  · simp [h]
  · rw [if_neg h]
    rw [if_pos (by simp)]

theorem maxStr_combine (e d : String) :
    (if e = "" || strLt e d then d else e) = maxStr e d := by
  unfold maxStr
  by_cases he : e = ""
  · subst he
    cases hlt : strLt "" d with
    | true => simp [hlt]
    | false =>
      have hd := strLt_empty_false hlt
      subst hd
      simp
  · cases hlt : strLt e d with
    | true => simp [he, hlt]
    | false => simp [he, hlt]

theorem dates_stepUser (r : TriggerQueryResult γ) (s : MergeState γ)
    (v u : String) :
    mget (stepUser r s v).datesByUserId u =
      if v = u then
        some (maxStr ((mget s.datesByUserId u).getD "")
          ((mget r.dates u).getD ""))
      else mget s.datesByUserId u := by
  have hd : (stepUser r s v).datesByUserId =
      (match mget s.datesByUserId v with
       | none => mset s.datesByUserId v ((mget r.dates v).getD "")
       | some e =>
         if e = "" || strLt e ((mget r.dates v).getD "") then
           mset s.datesByUserId v ((mget r.dates v).getD "")
         else s.datesByUserId) := rfl
  by_cases hv : v = u
  · subst hv
    rw [if_pos rfl, hd]
    rcases hex : mget s.datesByUserId v with _ | e
    · rw [mget_mset_self]
      simp only [Option.getD_none]
      rw [maxStr_bot]
    · simp only [Option.getD_some]
      rw [← maxStr_combine e ((mget r.dates v).getD "")]
      by_cases hc : (decide (e = "") || strLt e ((mget r.dates v).getD "")) = true
      · rw [if_pos hc, if_pos hc, mget_mset_self]
      · rw [if_neg hc, if_neg hc, hex]
  · rw [if_neg hv, hd]
    rcases hex : mget s.datesByUserId v with _ | e
    · exact mget_mset_ne _ _ hv
    · dsimp only
      by_cases hc : (decide (e = "") || strLt e ((mget r.dates v).getD "")) = true
      · rw [if_pos hc]
        exact mget_mset_ne _ _ hv
      · rw [if_neg hc]

theorem trigs_stepUser (r : TriggerQueryResult γ) (s : MergeState γ)
    (v u : String) :
    mget (stepUser r s v).triggersByUserId u =
      if v = u then
        some (appendIfNew ((mget s.triggersByUserId u).getD []) r.triggerType)
      else mget s.triggersByUserId u := by
  have ht : (stepUser r s v).triggersByUserId =
      (let trigs0 :=
        if mhas s.triggersByUserId v then s.triggersByUserId
        else mset s.triggersByUserId v []
       let l := (mget trigs0 v).getD []
       if r.triggerType ∈ l then trigs0
       else mset trigs0 v (l ++ [r.triggerType])) := rfl
  rw [ht]
  by_cases hhas : mhas s.triggersByUserId v
  · simp only [hhas, if_true]
    obtain ⟨l₀, hl₀⟩ := Option.isSome_iff_exists.mp hhas
    simp only [hl₀, Option.getD_some]
    by_cases hmem : r.triggerType ∈ l₀
    · rw [if_pos hmem]
      by_cases hv : v = u
      · subst hv
        rw [if_pos rfl, hl₀]
        simp only [Option.getD_some]
        unfold appendIfNew
        rw [if_pos hmem]
      · rw [if_neg hv]
    · rw [if_neg hmem]
      by_cases hv : v = u
      · subst hv
        rw [if_pos rfl, mget_mset_self, hl₀]
        simp only [Option.getD_some]
        unfold appendIfNew
        rw [if_neg hmem]
      · rw [if_neg hv]
        exact mget_mset_ne _ _ hv
  · have hfalse : mhas s.triggersByUserId v = false := by simpa using hhas
    simp only [hfalse, Bool.false_eq_true, if_false]
    have hnone : mget s.triggersByUserId v = none := by
      unfold mhas at hhas
      simpa using hhas
    have hl : mget (mset s.triggersByUserId v ([] : List TriggerType)) v =
        some [] := mget_mset_self _ _ _
    simp only [hl, Option.getD_some, List.not_mem_nil, if_false,
      List.nil_append]
    by_cases hv : v = u
    · subst hv
      rw [if_pos rfl, mget_mset_self, hnone]
      simp only [Option.getD_none]
      unfold appendIfNew
      rw [if_neg (by simp)]
      simp
    · rw [if_neg hv, mget_mset_ne _ _ hv, mget_mset_ne _ _ hv]

theorem dates_innerLoop (r : TriggerQueryResult γ) (us : List String)
    (s : MergeState γ) (u : String) :
    mget ((us.foldl (stepUser r) s).datesByUserId) u =
      if u ∈ us then
        some (maxStr ((mget s.datesByUserId u).getD "")
          ((mget r.dates u).getD ""))
      else mget s.datesByUserId u := by
  induction us generalizing s with
  | nil => simp
  | cons v us ih =>
    rw [List.foldl_cons, ih, dates_stepUser]
    by_cases hv : v = u
    · subst hv
      rw [if_pos (List.mem_cons_self v us)]
      by_cases hmem : v ∈ us
      · rw [if_pos hmem, if_pos rfl]
        simp only [Option.getD_some]
        rw [maxStr_assoc, maxStr_idem]
      · rw [if_neg hmem, if_pos rfl]
    · have hiff : (u ∈ v :: us) ↔ (u ∈ us) := by
        constructor
        · intro h
          rcases List.mem_cons.mp h with h₂ | h₂
          · exact absurd h₂.symm hv
          · exact h₂
        · intro h
          exact List.mem_cons.mpr (Or.inr h)
      by_cases hmem : u ∈ us
      · rw [if_pos hmem, if_neg hv, if_pos (hiff.mpr hmem)]
      · rw [if_neg hmem, if_neg hv, if_neg (fun h => hmem (hiff.mp h))]

theorem trigs_innerLoop (r : TriggerQueryResult γ) (us : List String)
    (s : MergeState γ) (u : String) :
    mget ((us.foldl (stepUser r) s).triggersByUserId) u =
      if u ∈ us then
        some (appendIfNew ((mget s.triggersByUserId u).getD []) r.triggerType)
      else mget s.triggersByUserId u := by
  induction us generalizing s with
  | nil => simp
  | cons v us ih =>
    rw [List.foldl_cons, ih, trigs_stepUser]
    by_cases hv : v = u
    · subst hv
      rw [if_pos (List.mem_cons_self v us)]
      by_cases hmem : v ∈ us
      · rw [if_pos hmem, if_pos rfl]
        simp only [Option.getD_some]
        rw [appendIfNew_idem]
      · rw [if_neg hmem, if_pos rfl]
    · have hiff : (u ∈ v :: us) ↔ (u ∈ us) := by
        constructor
        · intro h
          rcases List.mem_cons.mp h with h₂ | h₂
          · exact absurd h₂.symm hv
          · exact h₂
        · intro h
          exact List.mem_cons.mpr (Or.inr h)
      by_cases hmem : u ∈ us
      · rw [if_pos hmem, if_neg hv, if_pos (hiff.mpr hmem)]
      · rw [if_neg hmem, if_neg hv, if_neg (fun h => hmem (hiff.mp h))]

theorem nodup_stepUser (r : TriggerQueryResult γ) (s : MergeState γ)
    (v : String)
    (h₁ : (s.datesByUserId.map Prod.fst).Nodup)
    (h₂ : (s.triggersByUserId.map Prod.fst).Nodup) :
    ((stepUser r s v).datesByUserId.map Prod.fst).Nodup ∧
    ((stepUser r s v).triggersByUserId.map Prod.fst).Nodup := by
  constructor
  · have hd : (stepUser r s v).datesByUserId =
        (match mget s.datesByUserId v with
         | none => mset s.datesByUserId v ((mget r.dates v).getD "")
         | some e =>
           if e = "" || strLt e ((mget r.dates v).getD "") then
             mset s.datesByUserId v ((mget r.dates v).getD "")
           else s.datesByUserId) := rfl
    rw [hd]
    rcases mget s.datesByUserId v with _ | e
    · exact nodup_mset_keys _ _ h₁
    · dsimp only
      split
      · exact nodup_mset_keys _ _ h₁
      · exact h₁
  · have ht : (stepUser r s v).triggersByUserId =
        (let trigs0 :=
          if mhas s.triggersByUserId v then s.triggersByUserId
          else mset s.triggersByUserId v []
         let l := (mget trigs0 v).getD []
         if r.triggerType ∈ l then trigs0
         else mset trigs0 v (l ++ [r.triggerType])) := rfl
    rw [ht]
    by_cases hhas : mhas s.triggersByUserId v
    · simp only [hhas, if_true]
      split
      · exact h₂
      · exact nodup_mset_keys _ _ h₂
    · have hfalse : mhas s.triggersByUserId v = false := by simpa using hhas
      simp only [hfalse, Bool.false_eq_true, if_false]
      split
      · exact nodup_mset_keys _ _ h₂
      · exact nodup_mset_keys _ _ (nodup_mset_keys _ _ h₂)

theorem nodup_innerLoop (r : TriggerQueryResult γ) (us : List String)
    (s : MergeState γ)
    (h₁ : (s.datesByUserId.map Prod.fst).Nodup)
    (h₂ : (s.triggersByUserId.map Prod.fst).Nodup) :
    (((us.foldl (stepUser r) s).datesByUserId.map Prod.fst).Nodup) ∧
    (((us.foldl (stepUser r) s).triggersByUserId.map Prod.fst).Nodup) := by
  induction us generalizing s with
  | nil => exact ⟨h₁, h₂⟩
  | cons v us ih =>
    rw [List.foldl_cons]
    obtain ⟨hh₁, hh₂⟩ := nodup_stepUser r s v h₁ h₂
    exact ih _ hh₁ hh₂

theorem nodup_foldResults (results : List (TriggerQueryResult γ))
    (s : MergeState γ)
    (h₁ : (s.datesByUserId.map Prod.fst).Nodup)
    (h₂ : (s.triggersByUserId.map Prod.fst).Nodup) :
    (((results.foldl stepResult s).datesByUserId.map Prod.fst).Nodup) ∧
    (((results.foldl stepResult s).triggersByUserId.map Prod.fst).Nodup) := by
  induction results generalizing s with
  | nil => exact ⟨h₁, h₂⟩
  | cons r rs ih =>
    rw [List.foldl_cons]
    have h := nodup_innerLoop r r.userIds
      ({ s with connectionData :=
        match r.connectionData with
        | some cd => some cd
        | none => s.connectionData }) h₁ h₂
    exact ih (stepResult s r) h.1 h.2

theorem personDates_cons (r : TriggerQueryResult γ)
    (rs : List (TriggerQueryResult γ)) (u : String) :
    personDates (r :: rs) u =
      if u ∈ r.userIds then
        ((mget r.dates u).getD "") :: personDates rs u
      else personDates rs u := by
  unfold personDates
  rw [List.filterMap_cons]
  by_cases h : u ∈ r.userIds
  · rw [if_pos h, if_pos h]
  · rw [if_neg h, if_neg h]

theorem personTrigs_cons (r : TriggerQueryResult γ)
    (rs : List (TriggerQueryResult γ)) (u : String) :
    personTrigs (r :: rs) u =
      if u ∈ r.userIds then r.triggerType :: personTrigs rs u
      else personTrigs rs u := by
  unfold personTrigs
  rw [List.filterMap_cons]
  by_cases h : u ∈ r.userIds
  · rw [if_pos h, if_pos h]
  · rw [if_neg h, if_neg h]

theorem dates_stepResult (r : TriggerQueryResult γ) (s : MergeState γ)
    (u : String) :
    mget (stepResult s r).datesByUserId u =
      if u ∈ r.userIds then
        some (maxStr ((mget s.datesByUserId u).getD "")
          ((mget r.dates u).getD ""))
      else mget s.datesByUserId u :=
  dates_innerLoop r r.userIds _ u

theorem trigs_stepResult (r : TriggerQueryResult γ) (s : MergeState γ)
    (u : String) :
    mget (stepResult s r).triggersByUserId u =
      if u ∈ r.userIds then
        some (appendIfNew ((mget s.triggersByUserId u).getD []) r.triggerType)
      else mget s.triggersByUserId u :=
  trigs_innerLoop r r.userIds _ u

theorem dates_foldResults (results : List (TriggerQueryResult γ))
    (s : MergeState γ) (u : String) :
    mget ((results.foldl stepResult s).datesByUserId) u =
      (match personDates results u with
       | [] => mget s.datesByUserId u
       | d :: ds =>
         some ((d :: ds).foldl maxStr ((mget s.datesByUserId u).getD ""))) := by
  induction results generalizing s with
  | nil => simp [personDates]
  | cons r rs ih =>
    rw [List.foldl_cons, ih, personDates_cons]
    by_cases hmem : u ∈ r.userIds
    · rw [if_pos hmem, dates_stepResult, if_pos hmem]
      rcases personDates rs u with _ | ⟨d, ds⟩
      · simp
      · simp [List.foldl_cons]
    · rw [if_neg hmem, dates_stepResult, if_neg hmem]

theorem trigs_foldResults (results : List (TriggerQueryResult γ))
    (s : MergeState γ) (u : String) :
    mget ((results.foldl stepResult s).triggersByUserId) u =
      (match personTrigs results u with
       | [] => mget s.triggersByUserId u
       | t :: ts =>
         some ((t :: ts).foldl appendIfNew
           ((mget s.triggersByUserId u).getD []))) := by
  induction results generalizing s with
  | nil => simp [personTrigs]
  | cons r rs ih =>
    rw [List.foldl_cons, ih, personTrigs_cons]
    by_cases hmem : u ∈ r.userIds
    · rw [if_pos hmem, trigs_stepResult, if_pos hmem]
      rcases personTrigs rs u with _ | ⟨t, ts⟩
      · simp
      · simp [List.foldl_cons]
    · rw [if_neg hmem, trigs_stepResult, if_neg hmem]

theorem personDates_mem (results : List (TriggerQueryResult γ)) (u : String)
    (d : String) :
    d ∈ personDates results u ↔
      ∃ r ∈ results, u ∈ r.userIds ∧ (mget r.dates u).getD "" = d := by
  unfold personDates
  rw [List.mem_filterMap]
  constructor
  · rintro ⟨r, hr, hf⟩
    by_cases h : u ∈ r.userIds
    · rw [if_pos h] at hf
      exact ⟨r, hr, h, Option.some.inj hf⟩
    · rw [if_neg h] at hf
      cases hf
  · rintro ⟨r, hr, h, hd⟩
    exact ⟨r, hr, by rw [if_pos h, hd]⟩

theorem personDates_eq_nil (results : List (TriggerQueryResult γ))
    (u : String) :
    personDates results u = [] ↔ ¬ ∃ r ∈ results, u ∈ r.userIds := by
  unfold personDates
  rw [List.filterMap_eq_nil_iff]
  constructor
  · rintro h ⟨r, hr, hu⟩
    have hx := h r hr
    rw [if_pos hu] at hx
    cases hx
  · intro h r hr
    rw [if_neg (fun hu => h ⟨r, hr, hu⟩)]

theorem personTrigs_mem (results : List (TriggerQueryResult γ)) (u : String)
    (t : TriggerType) :
    t ∈ personTrigs results u ↔
      ∃ r ∈ results, u ∈ r.userIds ∧ r.triggerType = t := by
  unfold personTrigs
  rw [List.mem_filterMap]
  constructor
  · rintro ⟨r, hr, hf⟩
    by_cases h : u ∈ r.userIds
    · rw [if_pos h] at hf
      exact ⟨r, hr, h, Option.some.inj hf⟩
    · rw [if_neg h] at hf
      cases hf
  · rintro ⟨r, hr, h, hd⟩
    exact ⟨r, hr, by rw [if_pos h, hd]⟩

theorem personTrigs_eq_nil (results : List (TriggerQueryResult γ))
    (u : String) :
    personTrigs results u = [] ↔ ¬ ∃ r ∈ results, u ∈ r.userIds := by
  unfold personTrigs
  rw [List.filterMap_eq_nil_iff]
  constructor
  · rintro h ⟨r, hr, hu⟩
    have hx := h r hr
    rw [if_pos hu] at hx
    cases hx
  · intro h r hr
    rw [if_neg (fun hu => h ⟨r, hr, hu⟩)]

theorem entryLe_total (a b : TriggerEntry) :
    entryLe a b = true ∨ entryLe b a = true := by
  unfold entryLe
  by_cases hd : a.date = b.date
  · simp only [hd, if_true, if_pos rfl]
    cases h : strLt b.userId a.userId with
    | true => right; simp [strLt_asymm h]
    | false => left; simp [h]
  · have hd' : ¬ b.date = a.date := fun h => hd h.symm
    simp only [hd, hd', if_false]
    cases h₁ : strLt b.date a.date with
    | true => left; rfl
    | false =>
      cases h₂ : strLt a.date b.date with
      | true => right; rfl
      | false => exact absurd (strLt_connex h₂ h₁) hd

theorem entryLe_trans (a b c : TriggerEntry) (h₁ : entryLe a b = true)
    (h₂ : entryLe b c = true) : entryLe a c = true := by
  unfold entryLe at h₁ h₂ ⊢
  by_cases hab : a.date = b.date
  · by_cases hbc : b.date = c.date
    · have hac : a.date = c.date := hab.trans hbc
      simp only [hab, if_true, if_pos rfl] at h₁
      simp only [hbc, if_true, if_pos rfl] at h₂
      simp only [hac, if_true, if_pos rfl]
      simp only [Bool.not_eq_true'] at h₁ h₂ ⊢
      cases hca : strLt c.userId a.userId with
      | true =>
        cases hbc₂ : strLt b.userId c.userId with
        | true =>
          rw [strLt_trans hbc₂ hca] at h₁
          exact absurd h₁ (by simp)
        | false =>
          have hbe := strLt_connex hbc₂ h₂
          rw [← hbe] at hca
          rw [hca] at h₁
          exact absurd h₁ (by simp)
      | false => rfl
    · have hac : ¬ a.date = c.date := by rw [hab]; exact hbc
      simp only [hbc, if_false] at h₂
      simp only [hac, if_false]
      rw [hab]
      exact h₂
  · by_cases hbc : b.date = c.date
    · have hac : ¬ a.date = c.date := by rw [← hbc]; exact hab
      simp only [hab, if_false] at h₁
      simp only [hac, if_false]
      rw [← hbc]
      exact h₁
    · simp only [hab, if_false] at h₁
      simp only [hbc, if_false] at h₂
      by_cases hac : a.date = c.date
      · rw [hac] at h₁
        rw [strLt_asymm h₁] at h₂
        exact absurd h₂ (by simp)
      · simp only [hac, if_false]
        exact strLt_trans h₂ h₁

end Trig

namespace Rank

theorem rankLe_total (a b : ProfileWithSignals) :
    rankLe a b = true ∨ rankLe b a = true := by
  unfold rankLe
  rcases Nat.le_total (b.relevanceScore.getD 0) (a.relevanceScore.getD 0) with h | h
  · left; simpa using h
  · right; simpa using h

theorem rankLe_trans (a b c : ProfileWithSignals) (h₁ : rankLe a b = true)
    (h₂ : rankLe b c = true) : rankLe a c = true := by
  unfold rankLe at h₁ h₂ ⊢
  simp only [decide_eq_true_eq] at h₁ h₂ ⊢
  omega

theorem scoreOf_default_eq_specScore (liked : List String)
    (p : ProfileWithSignals) : scoreOf {} liked p = specScore liked p := by
  unfold scoreOf specScore
  simp only [true_and, if_true]
  split_ifs <;> omega

end Rank

namespace Ctx

theorem jget_obj (fs : List (String × JVal)) (k : String) :
    jget (JVal.obj fs) k = mget fs k := rfl

theorem genericTrim_fit {cfg : ContextConfig} {r : JVal}
    (h : (stringifyV r).length ≤ cfg.maxToolPayloadChars) :
    genericTrim cfg r = r := by
  unfold genericTrim
  simp [h]

theorem trimFeedSignalsResult_idem (r : JVal) :
    trimFeedSignalsResult (trimFeedSignalsResult r) = trimFeedSignalsResult r := by
  by_cases harr : ∃ ss, jget r "signals" = some (JVal.arr ss)
  · rcases harr with ⟨ss, hss⟩
    by_cases hlen : ss.length > 50
    · have h1 : trimFeedSignalsResult r =
          JVal.obj (mset (mset (mset (spreadFields r)
            "signals" (.arr (ss.take 50)))
            "trimmed" (.bool true))
            "original_count" (.num ss.length)) := by
        unfold trimFeedSignalsResult
        rw [hss]
        simp [hlen]
      rw [h1]
      unfold trimFeedSignalsResult
      rw [jget_obj, mget_mset_ne _ _ (by decide), mget_mset_ne _ _ (by decide),
        mget_mset_self]
      have h3 : ¬ (ss.take 50).length > 50 := by
        rw [List.length_take]; omega
      simp [h3]
    · have h1 : trimFeedSignalsResult r = r := by
        unfold trimFeedSignalsResult
        rw [hss]
        simp [hlen]
      rw [h1, h1]
  · have h1 : trimFeedSignalsResult r = r := by
      unfold trimFeedSignalsResult
      split
      · rename_i ss heq
        exact absurd ⟨ss, heq⟩ harr
      · rfl
    rw [h1, h1]

theorem trimAnalyzeNetworkResult_idem (r : JVal) :
    trimAnalyzeNetworkResult (trimAnalyzeNetworkResult r) =
      trimAnalyzeNetworkResult r := by
  by_cases harr : ∃ ps, jget r "profiles" = some (JVal.arr ps)
  · rcases harr with ⟨ps, hps⟩
    by_cases hlen : ps.length > 50
    · have h1 : trimAnalyzeNetworkResult r =
          JVal.obj (mset (mset (mset (spreadFields r)
            "profiles" (.arr ((ps.take 50).map compressProfile)))
            "trimmed" (.bool true))
            "original_count" (.num ps.length)) := by
        unfold trimAnalyzeNetworkResult
        rw [hps]
        simp [hlen]
      rw [h1]
      unfold trimAnalyzeNetworkResult
      rw [jget_obj, mget_mset_ne _ _ (by decide), mget_mset_ne _ _ (by decide),
        mget_mset_self]
      have h3 : ¬ ((ps.take 50).map compressProfile).length > 50 := by
        rw [List.length_map, List.length_take]; omega
      simp [h3]
    · have h1 : trimAnalyzeNetworkResult r = r := by
        unfold trimAnalyzeNetworkResult
        rw [hps]
        simp [hlen]
      rw [h1, h1]
  · have h1 : trimAnalyzeNetworkResult r = r := by
      unfold trimAnalyzeNetworkResult
      split
      · rename_i ps heq
        exact absurd ⟨ps, heq⟩ harr
      · rfl
    rw [h1, h1]

theorem trimGroupMembersResult_idem (r : JVal) :
    trimGroupMembersResult (trimGroupMembersResult r) =
      trimGroupMembersResult r := by
  by_cases harr : ∃ ms, jget r "members" = some (JVal.arr ms)
  · rcases harr with ⟨ms, hms⟩
    by_cases hlen : ms.length > 50
    · have h1 : trimGroupMembersResult r =
          JVal.obj (mset (mset (mset (spreadFields r)
            "members" (.arr ((ms.take 50).map compressProfile)))
            "trimmed" (.bool true))
            "original_count" (.num ms.length)) := by
        unfold trimGroupMembersResult
        rw [hms]
        simp [hlen]
      rw [h1]
      unfold trimGroupMembersResult
      rw [jget_obj, mget_mset_ne _ _ (by decide), mget_mset_ne _ _ (by decide),
        mget_mset_self]
      have h3 : ¬ ((ms.take 50).map compressProfile).length > 50 := by
        rw [List.length_map, List.length_take]; omega
      simp [h3]
    · have h1 : trimGroupMembersResult r = r := by
        unfold trimGroupMembersResult
        rw [hms]
        simp [hlen]
      rw [h1, h1]
  · have h1 : trimGroupMembersResult r = r := by
      unfold trimGroupMembersResult
      split
      · rename_i ms heq
        exact absurd ⟨ms, heq⟩ harr
      · rfl
    rw [h1, h1]

theorem mget_limitField_ne (acc : List (String × JVal)) {f g : String}
    (h : f ≠ g) :
    mget (trimPersonDetailsResult.limitField acc f) g = mget acc g := by
  unfold trimPersonDetailsResult.limitField
  split
  · exact mget_mset_ne _ _ h
  · rfl

theorem limitField_limited (acc : List (String × JVal)) (f : String) :
    ∀ xs, mget (trimPersonDetailsResult.limitField acc f) f =
        some (JVal.arr xs) → xs.length ≤ 3 := by
  intro xs hx
  unfold trimPersonDetailsResult.limitField at hx
  revert hx
  split
  · rename_i ys hy
    rw [mget_mset_self]
    intro hx
    cases hx
    simp [List.length_take]
  · rename_i hnone
    intro hx
    exact absurd hx (hnone xs)

theorem limitField_id_of_limited (acc : List (String × JVal)) (f : String)
    (h : ∀ xs, mget acc f = some (JVal.arr xs) → xs.length ≤ 3) :
    trimPersonDetailsResult.limitField acc f = acc := by
  unfold trimPersonDetailsResult.limitField
  split
  · rename_i xs hx
    have hle := h xs hx
    rw [List.take_of_length_le hle]
    exact mset_self hx
  · rfl

theorem trimPersonDetailsResult_idem (r : JVal) :
    trimPersonDetailsResult (trimPersonDetailsResult r) =
      trimPersonDetailsResult r := by
  rcases hp : jget r "profile" with _ | profile
  · have h1 : trimPersonDetailsResult r = r := by
      unfold trimPersonDetailsResult
      rw [hp]
    rw [h1, h1]
  · by_cases ht : truthy profile = true
    · have h1 : trimPersonDetailsResult r =
          JVal.obj (mset (spreadFields r) "profile"
            (.obj (["sectors", "locations", "stages", "companies"].foldl
              trimPersonDetailsResult.limitField (spreadFields profile)))) := by
        unfold trimPersonDetailsResult
        rw [hp]
        simp [ht]
      set limited := ["sectors", "locations", "stages", "companies"].foldl
        trimPersonDetailsResult.limitField (spreadFields profile) with hlim
      have hlim4 : limited =
          trimPersonDetailsResult.limitField
            (trimPersonDetailsResult.limitField
              (trimPersonDetailsResult.limitField
                (trimPersonDetailsResult.limitField
                  (spreadFields profile) "sectors") "locations") "stages")
            "companies" := by
        rw [hlim]; rfl
      have hsec : ∀ xs, mget limited "sectors" = some (JVal.arr xs) →
          xs.length ≤ 3 := by
        intro xs hx
        rw [hlim4, mget_limitField_ne _ (by decide),
          mget_limitField_ne _ (by decide),
          mget_limitField_ne _ (by decide)] at hx
        exact limitField_limited _ _ xs hx
      have hloc : ∀ xs, mget limited "locations" = some (JVal.arr xs) →
          xs.length ≤ 3 := by
        intro xs hx
        rw [hlim4, mget_limitField_ne _ (by decide),
          mget_limitField_ne _ (by decide)] at hx
        exact limitField_limited _ _ xs hx
      have hsta : ∀ xs, mget limited "stages" = some (JVal.arr xs) →
          xs.length ≤ 3 := by
        intro xs hx
        rw [hlim4, mget_limitField_ne _ (by decide)] at hx
        exact limitField_limited _ _ xs hx
      have hcom : ∀ xs, mget limited "companies" = some (JVal.arr xs) →
          xs.length ≤ 3 := by
        intro xs hx
        rw [hlim4] at hx
        exact limitField_limited _ _ xs hx
      have hfold : ["sectors", "locations", "stages", "companies"].foldl
          trimPersonDetailsResult.limitField limited = limited := by
        show trimPersonDetailsResult.limitField
          (trimPersonDetailsResult.limitField
            (trimPersonDetailsResult.limitField
              (trimPersonDetailsResult.limitField limited "sectors")
              "locations") "stages") "companies" = limited
        rw [limitField_id_of_limited _ _ hsec,
          limitField_id_of_limited _ _ hloc,
          limitField_id_of_limited _ _ hsta,
          limitField_id_of_limited _ _ hcom]
      rw [h1]
      unfold trimPersonDetailsResult
      rw [jget_obj, mget_mset_self]
      simp only [truthy, if_true]
      show JVal.obj (mset (mset (spreadFields r) "profile" (.obj limited))
          "profile" (.obj (["sectors", "locations", "stages", "companies"].foldl
            trimPersonDetailsResult.limitField
            (spreadFields (JVal.obj limited))))) = _
      have hspread : spreadFields (JVal.obj limited) = limited := rfl
      rw [hspread, hfold, mset_self (mget_mset_self _ _ _)]
    · have h1 : trimPersonDetailsResult r = r := by
        unfold trimPersonDetailsResult
        rw [hp]
        simp [ht]
      rw [h1, h1]

theorem trimFeedSignalsResult_shape (r : JVal) :
    (∃ fs, trimFeedSignalsResult r = JVal.obj fs) ∨
      trimFeedSignalsResult r = r := by
  unfold trimFeedSignalsResult
  split
  · split
    · exact Or.inl ⟨_, rfl⟩
    · exact Or.inr rfl
  · exact Or.inr rfl

theorem trimAnalyzeNetworkResult_shape (r : JVal) :
    (∃ fs, trimAnalyzeNetworkResult r = JVal.obj fs) ∨
      trimAnalyzeNetworkResult r = r := by
  unfold trimAnalyzeNetworkResult
  split
  · split
    · exact Or.inl ⟨_, rfl⟩
    · exact Or.inr rfl
  · exact Or.inr rfl

theorem trimGroupMembersResult_shape (r : JVal) :
    (∃ fs, trimGroupMembersResult r = JVal.obj fs) ∨
      trimGroupMembersResult r = r := by
  unfold trimGroupMembersResult
  split
  · split
    · exact Or.inl ⟨_, rfl⟩
    · exact Or.inr rfl
  · exact Or.inr rfl

theorem trimPersonDetailsResult_shape (r : JVal) :
    (∃ fs, trimPersonDetailsResult r = JVal.obj fs) ∨
      trimPersonDetailsResult r = r := by
  unfold trimPersonDetailsResult
  split
  · split
    · exact Or.inl ⟨_, rfl⟩
    · exact Or.inr rfl
  · exact Or.inr rfl

theorem trimToolResult_pd_idem (cfg : ContextConfig) (r : JVal) :
    trimToolResult cfg "get_person_details"
        (trimToolResult cfg "get_person_details" r) =
      trimToolResult cfg "get_person_details" r := by
  cases r with
  | str s => rfl
  | num n => rfl
  | bool b => rfl
  | null => rfl
  | arr es => rfl
  | obj fs =>
    have e1 : trimToolResult cfg "get_person_details" (JVal.obj fs) =
        trimPersonDetailsResult (JVal.obj fs) := rfl
    rcases trimPersonDetailsResult_shape (JVal.obj fs) with ⟨gs, hg⟩ | hr
    · rw [e1, hg]
      have e2 : trimToolResult cfg "get_person_details" (JVal.obj gs) =
          trimPersonDetailsResult (JVal.obj gs) := rfl
      rw [e2]
      have h := trimPersonDetailsResult_idem (JVal.obj fs)
      rw [hg] at h
      exact h
    · rw [e1, hr, e1]
      exact hr

theorem trimToolResult_an_idem (cfg : ContextConfig) (r : JVal) :
    trimToolResult cfg "analyze_network"
        (trimToolResult cfg "analyze_network" r) =
      trimToolResult cfg "analyze_network" r := by
  cases r with
  | str s => rfl
  | num n => rfl
  | bool b => rfl
  | null => rfl
  | arr es => rfl
  | obj fs =>
    have e1 : trimToolResult cfg "analyze_network" (JVal.obj fs) =
        trimAnalyzeNetworkResult (JVal.obj fs) := rfl
    rcases trimAnalyzeNetworkResult_shape (JVal.obj fs) with ⟨gs, hg⟩ | hr
    · rw [e1, hg]
      have e2 : trimToolResult cfg "analyze_network" (JVal.obj gs) =
          trimAnalyzeNetworkResult (JVal.obj gs) := rfl
      rw [e2]
      have h := trimAnalyzeNetworkResult_idem (JVal.obj fs)
      rw [hg] at h
      exact h
    · rw [e1, hr, e1]
      exact hr

theorem trimToolResult_fs_idem (cfg : ContextConfig) (r : JVal) :
    trimToolResult cfg "get_feed_signals"
        (trimToolResult cfg "get_feed_signals" r) =
      trimToolResult cfg "get_feed_signals" r := by
  cases r with
  | str s => rfl
  | num n => rfl
  | bool b => rfl
  | null => rfl
  | arr es => rfl
  | obj fs =>
    have e1 : trimToolResult cfg "get_feed_signals" (JVal.obj fs) =
        trimFeedSignalsResult (JVal.obj fs) := rfl
    rcases trimFeedSignalsResult_shape (JVal.obj fs) with ⟨gs, hg⟩ | hr
    · rw [e1, hg]
      have e2 : trimToolResult cfg "get_feed_signals" (JVal.obj gs) =
          trimFeedSignalsResult (JVal.obj gs) := rfl
      rw [e2]
      have h := trimFeedSignalsResult_idem (JVal.obj fs)
      rw [hg] at h
      exact h
    · rw [e1, hr, e1]
      exact hr

theorem trimToolResult_gm_idem (cfg : ContextConfig) (r : JVal) :
    trimToolResult cfg "get_group_members"
        (trimToolResult cfg "get_group_members" r) =
      trimToolResult cfg "get_group_members" r := by
  cases r with
  | str s => rfl
  | num n => rfl
  | bool b => rfl
  | null => rfl
  | arr es => rfl
  | obj fs =>
    have e1 : trimToolResult cfg "get_group_members" (JVal.obj fs) =
        trimGroupMembersResult (JVal.obj fs) := rfl
    rcases trimGroupMembersResult_shape (JVal.obj fs) with ⟨gs, hg⟩ | hr
    · rw [e1, hg]
      have e2 : trimToolResult cfg "get_group_members" (JVal.obj gs) =
          trimGroupMembersResult (JVal.obj gs) := rfl
      rw [e2]
      have h := trimGroupMembersResult_idem (JVal.obj fs)
      rw [hg] at h
      exact h
    · rw [e1, hr, e1]
      exact hr

theorem length_userIndices (msgs : List InternalMessage) :
    (userIndices msgs).length = countUserTurns msgs := by
  induction msgs with
  | nil => rfl
  | cons m ms ih =>
    by_cases h : m.role = Role.user
    · simp [userIndices, countUserTurns, List.filter_cons, h]
      simpa [countUserTurns] using ih
    · simp [userIndices, countUserTurns, List.filter_cons, h]
      simpa [countUserTurns] using ih

theorem userIndices_spec (msgs : List InternalMessage) :
    ∀ k i, (userIndices msgs)[k]? = some i →
      (∃ m, msgs[i]? = some m ∧ m.role = Role.user) ∧
      countUserTurns (msgs.drop i) = countUserTurns msgs - k := by
  induction msgs with
  | nil => intro k i h; simp [userIndices] at h
  | cons m ms ih =>
    intro k i h
    by_cases hu : m.role = Role.user
    · simp only [userIndices, hu, if_true, if_pos rfl] at h
      cases k with
      | zero =>
        simp only [List.getElem?_cons_zero, Option.some.injEq] at h
        subst h
        refine ⟨⟨m, by simp, hu⟩, by simp⟩
      | succ k₂ =>
        simp only [List.getElem?_cons_succ, List.getElem?_map] at h
        obtain ⟨i₂, hmap, hi⟩ := Option.map_eq_some'.mp h
        subst hi
        · obtain ⟨⟨m₂, hm₂, hr₂⟩, hcount⟩ := ih k₂ i₂ hmap
          have hlt : k₂ < (userIndices ms).length :=
            List.getElem?_eq_some_iff.mp hmap |>.1
          rw [length_userIndices] at hlt
          refine ⟨⟨m₂, by simpa using hm₂, hr₂⟩, ?_⟩
          have hc : countUserTurns (m :: ms) = countUserTurns ms + 1 := by
            simp [countUserTurns, List.filter_cons, hu]
          simp only [List.drop_succ_cons, hc, hcount]
          omega
    · simp only [userIndices, hu, if_false] at h
      rw [List.getElem?_map] at h
      obtain ⟨i₂, hmap, hi⟩ := Option.map_eq_some'.mp h
      subst hi
      · obtain ⟨⟨m₂, hm₂, hr₂⟩, hcount⟩ := ih k i₂ hmap
        have hc : countUserTurns (m :: ms) = countUserTurns ms := by
          simp [countUserTurns, List.filter_cons, hu]
        refine ⟨⟨m₂, by simpa using hm₂, hr₂⟩, ?_⟩
        simp only [List.drop_succ_cons, hc, hcount]

theorem trimStep_no_events (cfg : ContextConfig)
    (acc : List InternalMessage × Nat) (msg : InternalMessage)
    (hm : msg.toolEvents = none) :
    applyToolTrimming.trimStep cfg acc msg = (acc.1 ++ [msg], acc.2) := by
  unfold applyToolTrimming.trimStep
  split
  · rename_i evs hevs hrole
    rw [hm] at hevs
    cases hevs
  · rfl

theorem applyToolTrimming_id (cfg : ContextConfig)
    (msgs : List InternalMessage) (h : ∀ m ∈ msgs, m.toolEvents = none) :
    applyToolTrimming cfg msgs = (msgs, 0) := by
  suffices hgen : ∀ (l : List InternalMessage),
      (∀ m ∈ l, m.toolEvents = none) →
      ∀ acc : List InternalMessage × Nat,
        l.foldl (applyToolTrimming.trimStep cfg) acc = (acc.1 ++ l, acc.2) by
    have := hgen msgs h ([], 0)
    simpa [applyToolTrimming] using this
  intro l hl
  induction l with
  | nil => intro acc; simp
  | cons m ms ih =>
    intro acc
    rw [List.foldl_cons, trimStep_no_events cfg acc m (hl m (by simp))]
    rw [ih (fun x hx => hl x (by simp [hx]))]
    simp

theorem applyTurnBasedTrimming_le (cfg : ContextConfig)
    (msgs : List InternalMessage)
    (h : countUserTurns msgs ≤ cfg.maxTurns) :
    applyTurnBasedTrimming cfg msgs = (msgs, []) := by
  unfold applyTurnBasedTrimming
  rw [if_pos (by rw [length_userIndices]; exact h)]

theorem mem_recent_of_turnTrim (cfg : ContextConfig)
    (msgs : List InternalMessage) :
    ∀ m ∈ (applyTurnBasedTrimming cfg msgs).1, m ∈ msgs := by
  intro m hm
  unfold applyTurnBasedTrimming at hm
  by_cases hif : (userIndices msgs).length ≤ cfg.maxTurns
  · rw [if_pos hif] at hm
    exact hm
  · rw [if_neg hif] at hm
    revert hm
    split
    · intro hm
      rcases List.mem_append.mp hm with hm' | hm'
      · exact (List.mem_filter.mp hm').1
      · exact List.mem_of_mem_drop hm'
    · intro hm
      rcases List.mem_append.mp hm with hm' | hm'
      · exact (List.mem_filter.mp hm').1
      · exact hm'

theorem refresh_raw_config (oracle : SummaryOracle) (s : SessionState) :
    (refreshOptimizedCache oracle s).rawMessages = s.rawMessages ∧
    (refreshOptimizedCache oracle s).config = s.config ∧
    (refreshOptimizedCache oracle s).contextDirty = s.contextDirty := by
  unfold refreshOptimizedCache
  split <;> exact ⟨rfl, rfl, rfl⟩

theorem refresh_trimCount (oracle : SummaryOracle) (s : SessionState)
    (h1 : ∀ m ∈ s.rawMessages, m.toolEvents = none) :
    (refreshOptimizedCache oracle s).toolTrimCountLastRefresh =
      if s.rawMessages.isEmpty then s.toolTrimCountLastRefresh else 0 := by
  unfold refreshOptimizedCache
  by_cases he : s.rawMessages.isEmpty
  · rw [if_pos he, if_pos he]
  · rw [if_neg he, if_neg he]
    by_cases ht : s.config.toolTrimEnabled
    · simp only [ht, if_true]
      rw [applyToolTrimming_id s.config _
        (fun m hm => h1 m (mem_recent_of_turnTrim s.config s.rawMessages m hm))]
    · simp [ht]

theorem refresh_noop (oracle : SummaryOracle) (s : SessionState)
    (h1 : ∀ m ∈ s.rawMessages, m.toolEvents = none)
    (hflag : s.rawMessages = [] → s.summaryAddedLastRefresh = false)
    (hk : countUserTurns s.rawMessages ≤ s.config.maxTurns) :
    (refreshOptimizedCache oracle s).optimizedMessages =
      toSdkFormat s.rawMessages ∧
    (refreshOptimizedCache oracle s).summaryAddedLastRefresh = false := by
  unfold refreshOptimizedCache
  by_cases he : s.rawMessages.isEmpty
  · rw [if_pos he]
    have hnil := List.isEmpty_iff.mp he
    exact ⟨by rw [hnil]; rfl, hflag hnil⟩
  · rw [if_neg he]
    have hro := applyTurnBasedTrimming_le s.config s.rawMessages hk
    rw [hro]
    have htt : (if s.config.toolTrimEnabled then
        applyToolTrimming s.config s.rawMessages else (s.rawMessages, 0)) =
        (s.rawMessages, 0) := by
      by_cases ht : s.config.toolTrimEnabled
      · rw [if_pos ht, applyToolTrimming_id s.config s.rawMessages h1]
      · rw [if_neg ht]
    simp only [htt]
    have hinj : injectSummaryIfNeeded s.config s.lastSummaryTurn oracle
        s.rawMessages [] s.rawMessages = (s.rawMessages, false, s.lastSummaryTurn) := by
      unfold injectSummaryIfNeeded
      rw [if_pos (by simp)]
    simp only [hinj]
    exact ⟨trivial, trivial⟩

theorem session_invariant (cfg : ContextConfig) (s : SessionState)
    (hr : Reachable cfg s) :
    s.config = cfg ∧
    (∀ m ∈ s.rawMessages, m.toolEvents = none) ∧
    s.toolTrimCountLastRefresh = 0 ∧
    (s.rawMessages = [] → s.summaryAddedLastRefresh = false) ∧
    (s.contextDirty = false → countUserTurns s.rawMessages ≤ cfg.maxTurns →
      s.optimizedMessages = toSdkFormat s.rawMessages ∧
      s.summaryAddedLastRefresh = false) := by
  induction hr with
  | init =>
    refine ⟨rfl, by simp [initialSession], rfl, fun _ => rfl, fun hd _ => ?_⟩
    cases hd
  | add msgs hprev ih =>
    obtain ⟨hcfg, h1, h2, h3, h4⟩ := ih
    refine ⟨hcfg, ?_, h2, ?_, ?_⟩
    · intro m hm
      rcases List.mem_append.mp hm with hm' | hm'
      · exact h1 m hm'
      · rcases List.mem_map.mp hm' with ⟨c, _, rfl⟩
        rfl
    · intro hnil
      rcases List.append_eq_nil.mp hnil with ⟨hraw, _⟩
      exact h3 hraw
    · intro hd
      cases hd
  | opt oracle hprev ih =>
    obtain ⟨hcfg, h1, h2, h3, h4⟩ := ih
    rename_i s₀
    unfold getOptimizedMessages
    by_cases hd : s₀.contextDirty
    · simp only [hd, if_true]
      obtain ⟨hraw, hcfg', _⟩ := refresh_raw_config oracle s₀
      have htc := refresh_trimCount oracle s₀ h1
      refine ⟨by rw [hcfg', hcfg], by rw [hraw]; exact h1, ?_, ?_, ?_⟩
      · rw [htc]
        by_cases he : s₀.rawMessages.isEmpty
        · rw [if_pos he]; exact h2
        · rw [if_neg he]
      · intro hnil
        rw [hraw] at hnil
        have he : s₀.rawMessages.isEmpty := by simp [hnil]
        show (refreshOptimizedCache oracle s₀).summaryAddedLastRefresh = false
        unfold refreshOptimizedCache
        rw [if_pos he]
        exact h3 hnil
      · intro _ hk
        rw [hraw] at hk
        have hn := refresh_noop oracle s₀ h1 h3 (by rw [hcfg]; exact hk)
        exact ⟨by rw [hraw]; exact hn.1, hn.2⟩
    · simp only [hd, if_false]
      exact ⟨hcfg, h1, h2, h3, h4⟩

theorem getMetrics_toolTrimCount (s : SessionState) :
    (getMetrics s).toolTrimCount = s.toolTrimCountLastRefresh := rfl

theorem getMetrics_summaryAdded (s : SessionState) :
    (getMetrics s).summaryAdded = s.summaryAddedLastRefresh := rfl

theorem trimToolResult_unknown_eq_generic (cfg : ContextConfig)
    {toolName : String}
    (h1 : toolName ≠ "find_people") (h2 : toolName ≠ "get_person_details")
    (h3 : toolName ≠ "analyze_network") (h4 : toolName ≠ "get_feed_signals")
    (h5 : toolName ≠ "get_group_members") :
    (∀ fs, trimToolResult cfg toolName (JVal.obj fs) =
      genericTrim cfg (JVal.obj fs)) ∧
    (∀ es, trimToolResult cfg toolName (JVal.arr es) =
      genericTrim cfg (JVal.arr es)) := by
  constructor
  · intro fs
    show (if toolName = "find_people" then _ else _) = _
    simp [h1, h2, h3, h4, h5]
  · intro es
    show (if toolName = "find_people" then _ else _) = _
    simp [h1, h2, h3, h4, h5]

end Ctx

/-! ### Claim theorems -/

/-- C10 (corrected): `normalizeDate` on a `null`/`undefined` date returns the
current date `YYYY-MM-DD` (the part of the clock's ISO rendering before
`"T"`), on a nonempty string the portion before the first `"T"`, and on a
`Date` the date portion of its ISO rendering; the output for missing dates
depends on the clock.  (The empty string — falsy in JS — is also treated as
missing, which is what the correction amends.) -/
theorem normalizeDate_missing_dates_become_today (nowIso : String) :
    Trig.normalizeDate none nowIso = Trig.beforeT nowIso ∧
    (∀ s : String, s ≠ "" →
      Trig.normalizeDate (some (Trig.DateInput.str s)) nowIso = Trig.beforeT s) ∧
    (∀ iso : String,
      Trig.normalizeDate (some (Trig.DateInput.date iso)) nowIso = Trig.beforeT iso) ∧
    (∀ nowIso₂ : String, Trig.beforeT nowIso ≠ Trig.beforeT nowIso₂ →
      Trig.normalizeDate none nowIso ≠ Trig.normalizeDate none nowIso₂) := by
  refine ⟨rfl, ?_, fun _ => rfl, fun n₂ h => h⟩
  intro s hs
  simp [Trig.normalizeDate, hs]

/-- Witness for the C10 theorem at concrete inputs. -/
theorem normalizeDate_missing_dates_become_today_witness :
    ("2024-03-04T12:00:00Z" : String) ≠ "" ∧
    Trig.normalizeDate (some (Trig.DateInput.str "2024-03-04T12:00:00Z"))
      "2026-10-11T08:00:00.000Z" = "2024-03-04" ∧
    Trig.beforeT "2026-10-11T08:00:00.000Z" ≠ Trig.beforeT "2026-10-12T08:00:00.000Z" ∧
    Trig.normalizeDate none "2026-10-11T08:00:00.000Z" ≠
      Trig.normalizeDate none "2026-10-12T08:00:00.000Z" := by
  have h := normalizeDate_missing_dates_become_today "2026-10-11T08:00:00.000Z"
  refine ⟨by decide, ?_, by decide, ?_⟩
  · rw [h.2.1 "2024-03-04T12:00:00Z" (by decide)]
    decide
  · exact h.2.2.2 "2026-10-12T08:00:00.000Z" (by decide)

/-- C10 counterexample to the claim as stated: applied to the (falsy) empty
string, `normalizeDate` does not return the input's date portion (which
would be `""`) but the clock's current date. -/
theorem normalizeDate_empty_string_counterexample :
    Trig.normalizeDate (some (Trig.DateInput.str "")) "2026-10-11T00:00:00.000Z"
      = "2026-10-11" ∧
    Trig.beforeT "" = "" ∧
    Trig.normalizeDate (some (Trig.DateInput.str "")) "2026-10-11T00:00:00.000Z"
      ≠ Trig.beforeT "" := by
  refine ⟨by decide, by decide, by decide⟩

/-- C5 (corrected): the merge output's `entries` list is sorted by entry
date descending with ties broken by `userId` ascending, but it carries one
entry per (person, contributing result) pair, not one per person; on the
spec's example the output is three entries (person 42 appears under each of
its two triggers), while the per-person aggregate — most recent date and
matched trigger types — is carried in the `datesByUserId` /
`triggersByUserId` maps exactly as the claim's example values say. -/
theorem merge_entries_sorted_and_example :
    (∀ (γ : Type) (results : List (Trig.TriggerQueryResult γ)),
      (Trig.mergeAndSortTriggerResults results).entries.Pairwise
        (fun a b => Trig.entryLe a b = true)) ∧
    ((Trig.mergeAndSortTriggerResults (γ := Unit)
        [{ triggerType := .bio_change, userIds := ["42"],
           dates := [("42", "2024-01-10")] },
         { triggerType := .stealth_in, userIds := ["42", "7"],
           dates := [("42", "2024-01-12"), ("7", "2024-01-01")] }]).entries =
      [{ userId := "42", triggerType := .stealth_in, date := "2024-01-12" },
       { userId := "42", triggerType := .bio_change, date := "2024-01-10" },
       { userId := "7", triggerType := .stealth_in, date := "2024-01-01" }]) ∧
    (mget (Trig.mergeAndSortTriggerResults (γ := Unit)
        [{ triggerType := .bio_change, userIds := ["42"],
           dates := [("42", "2024-01-10")] },
         { triggerType := .stealth_in, userIds := ["42", "7"],
           dates := [("42", "2024-01-12"), ("7", "2024-01-01")] }]).datesByUserId
        "42" = some "2024-01-12" ∧
     mget (Trig.mergeAndSortTriggerResults (γ := Unit)
        [{ triggerType := .bio_change, userIds := ["42"],
           dates := [("42", "2024-01-10")] },
         { triggerType := .stealth_in, userIds := ["42", "7"],
           dates := [("42", "2024-01-12"), ("7", "2024-01-01")] }]).datesByUserId
        "7" = some "2024-01-01") ∧
    (mget (Trig.mergeAndSortTriggerResults (γ := Unit)
        [{ triggerType := .bio_change, userIds := ["42"],
           dates := [("42", "2024-01-10")] },
         { triggerType := .stealth_in, userIds := ["42", "7"],
           dates := [("42", "2024-01-12"), ("7", "2024-01-01")] }]).triggersByUserId
        "42" = some [.bio_change, .stealth_in] ∧
     mget (Trig.mergeAndSortTriggerResults (γ := Unit)
        [{ triggerType := .bio_change, userIds := ["42"],
           dates := [("42", "2024-01-10")] },
         { triggerType := .stealth_in, userIds := ["42", "7"],
           dates := [("42", "2024-01-12"), ("7", "2024-01-01")] }]).triggersByUserId
        "7" = some [.stealth_in]) := by
  refine ⟨?_, by decide, ⟨by decide, by decide⟩, ⟨by decide, by decide⟩⟩
  intro γ results
  show (jsSort Trig.entryLe _).Pairwise _
  exact jsSort_pairwise Trig.entryLe Trig.entryLe_total Trig.entryLe_trans _

/-- C5 counterexample to the claim as stated: on the spec's example the
sorted output is not the two-entry one-per-person feed — it has three
entries, and person 42 appears in two of them. -/
theorem merge_example_not_per_person_counterexample :
    ((Trig.mergeAndSortTriggerResults (γ := Unit)
        [{ triggerType := .bio_change, userIds := ["42"],
           dates := [("42", "2024-01-10")] },
         { triggerType := .stealth_in, userIds := ["42", "7"],
           dates := [("42", "2024-01-12"), ("7", "2024-01-01")] }]).entries.length
      = 3) ∧
    (((Trig.mergeAndSortTriggerResults (γ := Unit)
        [{ triggerType := .bio_change, userIds := ["42"],
           dates := [("42", "2024-01-10")] },
         { triggerType := .stealth_in, userIds := ["42", "7"],
           dates := [("42", "2024-01-12"), ("7", "2024-01-01")] }]).entries.filter
        (fun e => e.userId == "42")).length = 2) := by
  refine ⟨by decide, by decide⟩

/-- C6: with default options, `rankByRelevance` scores every candidate by
the spec formula — network tier 0/20/35/50 by follower count, +20 for a
recent bio change, +`min(2·signals, 20)`, +10 when liked — and returns the
candidates sorted by that score descending. -/
theorem rank_by_relevance_scoring (profiles : List Rank.ProfileWithSignals)
    (liked : List String) :
    ∃ out, Rank.rankByRelevance profiles (.ok liked) {} = .ok out ∧
      out.Perm (profiles.map (fun p =>
        { p with relevanceScore := some (Rank.specScore liked p) })) ∧
      out.Pairwise (fun a b =>
        b.relevanceScore.getD 0 ≤ a.relevanceScore.getD 0) := by
  by_cases hp : profiles.isEmpty
  · refine ⟨[], by simp [Rank.rankByRelevance, hp], ?_, by simp⟩
    rw [List.isEmpty_iff.mp hp]
    simp
  · refine ⟨jsSort Rank.rankLe (profiles.map (fun p =>
      { p with relevanceScore := some (Rank.scoreOf {} liked p) })), ?_, ?_, ?_⟩
    · simp [Rank.rankByRelevance, hp, Rank.getUserLikedSignalIds]
    · refine (jsSort_perm _ _).trans ?_
      have : ∀ p : Rank.ProfileWithSignals,
          Rank.scoreOf {} liked p = Rank.specScore liked p :=
        Rank.scoreOf_default_eq_specScore liked
      exact List.Perm.of_eq (by simp [this])
    · have h := jsSort_pairwise Rank.rankLe Rank.rankLe_total Rank.rankLe_trans
        (profiles.map (fun p =>
          { p with relevanceScore := some (Rank.scoreOf {} liked p) }))
      refine h.imp ?_
      intro a b hab
      simpa [Rank.rankLe] using hab

/-- C7 (spec-modelled lookup): when the liked-set lookup fails,
`rankByRelevance` returns exactly what it returns for an empty liked set —
ranked without any +10 bonus — and the failure never surfaces as an error. -/
theorem rank_degrades_on_liked_failure (profiles : List Rank.ProfileWithSignals)
    (e : Unit) (opts : Rank.RankingOptions) :
    Rank.rankByRelevance profiles (.error e) opts =
      Rank.rankByRelevance profiles (.ok []) opts ∧
    (∃ out, Rank.rankByRelevance profiles (.error e) opts = .ok out) ∧
    (∀ p : Rank.ProfileWithSignals,
      Rank.scoreOf opts [] p =
        Rank.scoreOf { boostNetwork := opts.boostNetwork,
                       boostLikedSimilar := false } [] p) := by
  refine ⟨rfl, ?_, ?_⟩
  · by_cases hp : profiles.isEmpty
    · exact ⟨[], by simp [Rank.rankByRelevance, hp]⟩
    · exact ⟨jsSort Rank.rankLe (profiles.map (fun p =>
        { p with relevanceScore := some (Rank.scoreOf opts
            (if opts.boostLikedSimilar then
              Rank.getUserLikedSignalIds (Except.error e) else []) p) })),
        by simp [Rank.rankByRelevance, hp]⟩
  · intro p
    simp [Rank.scoreOf]

/-- C3 (corrected): re-applying `trimToolResult` is the identity for the
`get_person_details`, `analyze_network`, `get_feed_signals` and
`get_group_members` branches, for non-object results, and for unknown tools
whose serialization fits within `maxToolPayloadChars`; it is not idempotent
in general — the `find_people` branch re-compresses profiles and drops the
`signal_summary` derived from the non-retained `total_signals` field, and an
unknown tool's over-limit payload is truncated again. -/
theorem trimToolResult_idempotent_cases (cfg : Ctx.ContextConfig)
    (toolName : String) (result : JVal)
    (h : toolName ∈ (["get_person_details", "analyze_network",
          "get_feed_signals", "get_group_members"] : List String)
       ∨ (toolName ∉ (["find_people", "get_person_details", "analyze_network",
            "get_feed_signals", "get_group_members"] : List String)
           ∧ (stringifyV result).length ≤ cfg.maxToolPayloadChars)
       ∨ ((∀ fs, result ≠ JVal.obj fs) ∧ (∀ es, result ≠ JVal.arr es))) :
    Ctx.trimToolResult cfg toolName (Ctx.trimToolResult cfg toolName result) =
      Ctx.trimToolResult cfg toolName result := by
  rcases h with hmem | ⟨hnot, hlen⟩ | ⟨hobj, harr⟩
  · simp only [List.mem_cons, List.not_mem_nil, or_false] at hmem
    rcases hmem with rfl | rfl | rfl | rfl
    · exact Ctx.trimToolResult_pd_idem cfg result
    · exact Ctx.trimToolResult_an_idem cfg result
    · exact Ctx.trimToolResult_fs_idem cfg result
    · exact Ctx.trimToolResult_gm_idem cfg result
  · simp only [List.mem_cons, List.not_mem_nil, or_false, not_or] at hnot
    obtain ⟨h1, h2, h3, h4, h5⟩ := hnot
    have hug := Ctx.trimToolResult_unknown_eq_generic cfg h1 h2 h3 h4 h5
    cases result with
    | str s => rfl
    | num n => rfl
    | bool b => rfl
    | null => rfl
    | obj fs =>
      rw [hug.1 fs, Ctx.genericTrim_fit hlen, hug.1 fs]
      exact Ctx.genericTrim_fit hlen
    | arr es =>
      rw [hug.2 es, Ctx.genericTrim_fit hlen, hug.2 es]
      exact Ctx.genericTrim_fit hlen
  · cases result with
    | str s => rfl
    | num n => rfl
    | bool b => rfl
    | null => rfl
    | obj fs => exact absurd rfl (hobj fs)
    | arr es => exact absurd rfl (harr es)

/-- Witness for the C3 theorem: a concrete over-limit `get_feed_signals`
result is trimmed once and is a fixed point thereafter. -/
theorem trimToolResult_idempotent_cases_witness :
    (("get_feed_signals" : String) ∈ (["get_person_details", "analyze_network",
        "get_feed_signals", "get_group_members"] : List String)) ∧
    Ctx.trimToolResult Ctx.defaultContextConfig "get_feed_signals"
        (Ctx.trimToolResult Ctx.defaultContextConfig "get_feed_signals"
          (JVal.obj [("signals", JVal.arr (List.replicate 60 (JVal.num 1)))])) =
      Ctx.trimToolResult Ctx.defaultContextConfig "get_feed_signals"
        (JVal.obj [("signals", JVal.arr (List.replicate 60 (JVal.num 1)))]) :=
  ⟨by decide,
   trimToolResult_idempotent_cases Ctx.defaultContextConfig "get_feed_signals"
     (JVal.obj [("signals", JVal.arr (List.replicate 60 (JVal.num 1)))])
     (Or.inl (by decide))⟩

/-- C3 counterexample to the claim as stated: trimming a `find_people`
result whose profile carries `total_signals` a second time changes the
output — the first pass synthesizes `signal_summary` from `total_signals`,
the allowlist drops `total_signals`, so the second pass cannot re-derive the
summary and removes it. -/
theorem trim_find_people_reapplication_counterexample :
    Ctx.trimToolResult Ctx.defaultContextConfig "find_people"
        (Ctx.trimToolResult Ctx.defaultContextConfig "find_people"
          (JVal.obj [("results", JVal.arr
            [JVal.obj [("user_id", JVal.num 1), ("total_signals", JVal.num 10)]])]))
      ≠ Ctx.trimToolResult Ctx.defaultContextConfig "find_people"
          (JVal.obj [("results", JVal.arr
            [JVal.obj [("user_id", JVal.num 1), ("total_signals", JVal.num 10)]])]) := by
  intro hcontra
  have h1 : Ctx.trimToolResult Ctx.defaultContextConfig "find_people"
      (JVal.obj [("results", JVal.arr
        [JVal.obj [("user_id", JVal.num 1), ("total_signals", JVal.num 10)]])]) =
      JVal.obj [("results", JVal.arr
        [JVal.obj [("user_id", JVal.num 1),
          ("signal_summary", JVal.str "10 signals")]])] := rfl
  rw [h1] at hcontra
  have h2 : Ctx.trimToolResult Ctx.defaultContextConfig "find_people"
      (JVal.obj [("results", JVal.arr
        [JVal.obj [("user_id", JVal.num 1),
          ("signal_summary", JVal.str "10 signals")]])]) =
      JVal.obj [("results", JVal.arr [JVal.obj [("user_id", JVal.num 1)]])] := rfl
  rw [h2] at hcontra
  simp at hcontra

/-- C2 (corrected): when `1 ≤ maxTurns < k` (user-turn count), the cutover
index is the `(k−m)`-th user message (0-based — exactly `m` user turns
remain from it onward), the recent bucket is all system messages followed by
the entire tail from the cutover index, and the older bucket is exactly the
non-system messages before the cutover.  Every non-system message therefore
appears exactly once, but a system message located at or after the cutover
appears twice — once in the leading system block and once in place in the
tail — which is what the correction amends. -/
theorem turn_window_characterization (cfg : Ctx.ContextConfig)
    (msgs : List Ctx.InternalMessage)
    (hm : 0 < cfg.maxTurns) (hk : cfg.maxTurns < Ctx.countUserTurns msgs) :
    ∃ i, (Ctx.userIndices msgs)[Ctx.countUserTurns msgs - cfg.maxTurns]? =
        some i ∧
      (∃ m, msgs[i]? = some m ∧ m.role = Ctx.Role.user) ∧
      Ctx.countUserTurns (msgs.drop i) = cfg.maxTurns ∧
      (Ctx.applyTurnBasedTrimming cfg msgs).1 =
        msgs.filter (fun m => m.role = Ctx.Role.system) ++ msgs.drop i ∧
      (Ctx.applyTurnBasedTrimming cfg msgs).2 =
        (msgs.take i).filter (fun m => m.role ≠ Ctx.Role.system) := by
  have hlen : Ctx.countUserTurns msgs - cfg.maxTurns <
      (Ctx.userIndices msgs).length := by
    rw [Ctx.length_userIndices]; omega
  have hsome : (Ctx.userIndices msgs)[Ctx.countUserTurns msgs - cfg.maxTurns]? =
      some ((Ctx.userIndices msgs).get
        ⟨Ctx.countUserTurns msgs - cfg.maxTurns, hlen⟩) :=
    List.getElem?_eq_getElem hlen
  obtain ⟨hmem, hcount⟩ := Ctx.userIndices_spec msgs _ _ hsome
  have hif : ¬ ((Ctx.userIndices msgs).length ≤ cfg.maxTurns) := by
    rw [Ctx.length_userIndices]; omega
  have hidx : (Ctx.userIndices msgs).length - cfg.maxTurns =
      Ctx.countUserTurns msgs - cfg.maxTurns := by
    rw [Ctx.length_userIndices]
  have e : Ctx.applyTurnBasedTrimming cfg msgs =
      (msgs.filter (fun m => m.role = Ctx.Role.system) ++
        msgs.drop ((Ctx.userIndices msgs).get
          ⟨Ctx.countUserTurns msgs - cfg.maxTurns, hlen⟩),
       (msgs.take ((Ctx.userIndices msgs).get
          ⟨Ctx.countUserTurns msgs - cfg.maxTurns, hlen⟩)).filter
         (fun m => m.role ≠ Ctx.Role.system)) := by
    unfold Ctx.applyTurnBasedTrimming
    rw [if_neg hif, hidx, hsome]
  refine ⟨_, hsome, hmem, ?_, ?_, ?_⟩
  · rw [hcount]; omega
  · rw [e]
  · rw [e]

/-- Witness for the C2 theorem at a concrete history: four user turns with
interleaved assistant/tool messages and a leading system prompt,
`maxTurns = 2`. -/
theorem turn_window_characterization_witness :
    0 < ({ Ctx.defaultContextConfig with maxTurns := 2 } :
        Ctx.ContextConfig).maxTurns ∧
    ({ Ctx.defaultContextConfig with maxTurns := 2 } :
        Ctx.ContextConfig).maxTurns <
      Ctx.countUserTurns
        [{ role := Ctx.Role.system, content := "s" },
         { role := Ctx.Role.user, content := "u1" },
         { role := Ctx.Role.assistant, content := "a1" },
         { role := Ctx.Role.user, content := "u2" },
         { role := Ctx.Role.user, content := "u3" }] ∧
    (∃ i, (Ctx.userIndices
        [{ role := Ctx.Role.system, content := "s" },
         { role := Ctx.Role.user, content := "u1" },
         { role := Ctx.Role.assistant, content := "a1" },
         { role := Ctx.Role.user, content := "u2" },
         { role := Ctx.Role.user, content := "u3" }])[Ctx.countUserTurns
        [{ role := Ctx.Role.system, content := "s" },
         { role := Ctx.Role.user, content := "u1" },
         { role := Ctx.Role.assistant, content := "a1" },
         { role := Ctx.Role.user, content := "u2" },
         { role := Ctx.Role.user, content := "u3" }] -
        ({ Ctx.defaultContextConfig with maxTurns := 2 } :
          Ctx.ContextConfig).maxTurns]? = some i ∧
      (∃ m, ([{ role := Ctx.Role.system, content := "s" },
         { role := Ctx.Role.user, content := "u1" },
         { role := Ctx.Role.assistant, content := "a1" },
         { role := Ctx.Role.user, content := "u2" },
         { role := Ctx.Role.user, content := "u3" }] :
           List Ctx.InternalMessage)[i]? = some m ∧
        m.role = Ctx.Role.user) ∧
      Ctx.countUserTurns ([{ role := Ctx.Role.system, content := "s" },
         { role := Ctx.Role.user, content := "u1" },
         { role := Ctx.Role.assistant, content := "a1" },
         { role := Ctx.Role.user, content := "u2" },
         { role := Ctx.Role.user, content := "u3" }].drop i) =
        ({ Ctx.defaultContextConfig with maxTurns := 2 } :
          Ctx.ContextConfig).maxTurns ∧
      (Ctx.applyTurnBasedTrimming
        { Ctx.defaultContextConfig with maxTurns := 2 }
        [{ role := Ctx.Role.system, content := "s" },
         { role := Ctx.Role.user, content := "u1" },
         { role := Ctx.Role.assistant, content := "a1" },
         { role := Ctx.Role.user, content := "u2" },
         { role := Ctx.Role.user, content := "u3" }]).1 =
        [{ role := Ctx.Role.system, content := "s" },
         { role := Ctx.Role.user, content := "u1" },
         { role := Ctx.Role.assistant, content := "a1" },
         { role := Ctx.Role.user, content := "u2" },
         { role := Ctx.Role.user, content := "u3" }].filter
          (fun m => m.role = Ctx.Role.system) ++
        [{ role := Ctx.Role.system, content := "s" },
         { role := Ctx.Role.user, content := "u1" },
         { role := Ctx.Role.assistant, content := "a1" },
         { role := Ctx.Role.user, content := "u2" },
         { role := Ctx.Role.user, content := "u3" }].drop i ∧
      (Ctx.applyTurnBasedTrimming
        { Ctx.defaultContextConfig with maxTurns := 2 }
        [{ role := Ctx.Role.system, content := "s" },
         { role := Ctx.Role.user, content := "u1" },
         { role := Ctx.Role.assistant, content := "a1" },
         { role := Ctx.Role.user, content := "u2" },
         { role := Ctx.Role.user, content := "u3" }]).2 =
        ([{ role := Ctx.Role.system, content := "s" },
         { role := Ctx.Role.user, content := "u1" },
         { role := Ctx.Role.assistant, content := "a1" },
         { role := Ctx.Role.user, content := "u2" },
         { role := Ctx.Role.user, content := "u3" }].take i).filter
          (fun m => m.role ≠ Ctx.Role.system)) :=
  ⟨by decide, by decide,
   turn_window_characterization
     { Ctx.defaultContextConfig with maxTurns := 2 }
     [{ role := Ctx.Role.system, content := "s" },
      { role := Ctx.Role.user, content := "u1" },
      { role := Ctx.Role.assistant, content := "a1" },
      { role := Ctx.Role.user, content := "u2" },
      { role := Ctx.Role.user, content := "u3" }]
     (by decide) (by decide)⟩

/-- C2 counterexample to the claim as stated: with two user turns,
`maxTurns = 1` and the system message after the cutover, the recent bucket
holds the system message twice (the input has it once), so the bucket does
not contain each message exactly once. -/
theorem turn_window_system_duplication_counterexample :
    (Ctx.applyTurnBasedTrimming
        { Ctx.defaultContextConfig with maxTurns := 1 }
        [{ role := Ctx.Role.user, content := "a" },
         { role := Ctx.Role.user, content := "b" },
         { role := Ctx.Role.system, content := "s" }]).1 =
      [{ role := Ctx.Role.system, content := "s" },
       { role := Ctx.Role.user, content := "b" },
       { role := Ctx.Role.system, content := "s" }] ∧
    ((Ctx.applyTurnBasedTrimming
        { Ctx.defaultContextConfig with maxTurns := 1 }
        [{ role := Ctx.Role.user, content := "a" },
         { role := Ctx.Role.user, content := "b" },
         { role := Ctx.Role.system, content := "s" }]).1.filter
      (fun m => m.role = Ctx.Role.system)).length = 2 ∧
    (([{ role := Ctx.Role.user, content := "a" },
       { role := Ctx.Role.user, content := "b" },
       { role := Ctx.Role.system, content := "s" }] :
        List Ctx.InternalMessage).filter
      (fun m => m.role = Ctx.Role.system)).length = 1 := by
  refine ⟨rfl, by decide, by decide⟩

/-- C8: on every reachable session whose user-turn count is within
`maxTurns`, `getOptimizedMessages` returns exactly the raw history (each
stored message's role and content, in order), reports `summaryAdded =
false`, and leaves the raw history untouched. -/
theorem getOptimizedMessages_noop_below_threshold (cfg : Ctx.ContextConfig)
    (oracle : Ctx.SummaryOracle) (s : Ctx.SessionState)
    (hr : Ctx.Reachable cfg s)
    (hk : Ctx.countUserTurns s.rawMessages ≤ cfg.maxTurns) :
    (Ctx.getOptimizedMessages oracle s).1 = Ctx.toSdkFormat s.rawMessages ∧
    (Ctx.getMetrics (Ctx.getOptimizedMessages oracle s).2).summaryAdded =
      false ∧
    (Ctx.getOptimizedMessages oracle s).2.rawMessages = s.rawMessages := by
  obtain ⟨hcfg, h1, h2, h3, h4⟩ := Ctx.session_invariant cfg s hr
  unfold Ctx.getOptimizedMessages
  by_cases hd : s.contextDirty
  · simp only [hd, if_true]
    have hn := Ctx.refresh_noop oracle s h1 h3 (by rw [hcfg]; exact hk)
    obtain ⟨hraw, _, _⟩ := Ctx.refresh_raw_config oracle s
    exact ⟨hn.1, hn.2, hraw⟩
  · have hd' : s.contextDirty = false := by simpa using hd
    simp only [hd', Bool.false_eq_true, if_false]
    obtain ⟨ho, hs⟩ := h4 hd' hk
    exact ⟨ho, hs, trivial⟩

/-- Witness for the C8 theorem: one user message added to a fresh default
session. -/
theorem getOptimizedMessages_noop_below_threshold_witness :
    Ctx.Reachable Ctx.defaultContextConfig
      (Ctx.addMessages [{ role := Ctx.Role.user, content := "hi" }]
        (Ctx.initialSession Ctx.defaultContextConfig)) ∧
    Ctx.countUserTurns
        (Ctx.addMessages [{ role := Ctx.Role.user, content := "hi" }]
          (Ctx.initialSession Ctx.defaultContextConfig)).rawMessages ≤
      Ctx.defaultContextConfig.maxTurns ∧
    ((Ctx.getOptimizedMessages (fun _ => none)
        (Ctx.addMessages [{ role := Ctx.Role.user, content := "hi" }]
          (Ctx.initialSession Ctx.defaultContextConfig))).1 =
      Ctx.toSdkFormat
        (Ctx.addMessages [{ role := Ctx.Role.user, content := "hi" }]
          (Ctx.initialSession Ctx.defaultContextConfig)).rawMessages ∧
    (Ctx.getMetrics (Ctx.getOptimizedMessages (fun _ => none)
        (Ctx.addMessages [{ role := Ctx.Role.user, content := "hi" }]
          (Ctx.initialSession Ctx.defaultContextConfig))).2).summaryAdded =
      false ∧
    (Ctx.getOptimizedMessages (fun _ => none)
        (Ctx.addMessages [{ role := Ctx.Role.user, content := "hi" }]
          (Ctx.initialSession Ctx.defaultContextConfig))).2.rawMessages =
      (Ctx.addMessages [{ role := Ctx.Role.user, content := "hi" }]
        (Ctx.initialSession Ctx.defaultContextConfig)).rawMessages) :=
  ⟨Ctx.Reachable.add _ Ctx.Reachable.init, by decide,
   getOptimizedMessages_noop_below_threshold Ctx.defaultContextConfig
     (fun _ => none)
     (Ctx.addMessages [{ role := Ctx.Role.user, content := "hi" }]
       (Ctx.initialSession Ctx.defaultContextConfig))
     (Ctx.Reachable.add _ Ctx.Reachable.init) (by decide)⟩

/-- C1: merge completeness — for inputs whose date maps cover their
`userIds` (the shape every trigger query produces), every person appearing
in at least one input has exactly one binding in each per-person aggregate
map of the output, the bound date is one of that person's dates and is
greatest among them (JS string order on normalized dates), the bound
trigger-type list is duplicate-free and holds exactly the trigger types
under which the person appeared, and a person absent from every input is
absent from both maps. -/
theorem merge_completeness {γ : Type}
    (results : List (Trig.TriggerQueryResult γ))
    (hwf : ∀ r ∈ results, ∀ u ∈ r.userIds, (mget r.dates u).isSome = true) :
    (((Trig.mergeAndSortTriggerResults results).datesByUserId.map
        Prod.fst).Nodup ∧
     ((Trig.mergeAndSortTriggerResults results).triggersByUserId.map
        Prod.fst).Nodup) ∧
    (∀ u : String, (∃ r ∈ results, u ∈ r.userIds) →
      (∃ d, mget (Trig.mergeAndSortTriggerResults results).datesByUserId u =
          some d ∧
        (∃ r ∈ results, u ∈ r.userIds ∧ mget r.dates u = some d) ∧
        (∀ r ∈ results, u ∈ r.userIds → ∀ dr, mget r.dates u = some dr →
          strLt d dr = false)) ∧
      (∃ l, mget (Trig.mergeAndSortTriggerResults results).triggersByUserId u =
          some l ∧ l.Nodup ∧
        (∀ t, t ∈ l ↔ ∃ r ∈ results, u ∈ r.userIds ∧ r.triggerType = t))) ∧
    (∀ u : String, (¬ ∃ r ∈ results, u ∈ r.userIds) →
      mget (Trig.mergeAndSortTriggerResults results).datesByUserId u = none ∧
      mget (Trig.mergeAndSortTriggerResults results).triggersByUserId u =
        none) := by
  have hMd : (Trig.mergeAndSortTriggerResults results).datesByUserId =
      (results.foldl Trig.stepResult ⟨[], [], [], none⟩).datesByUserId := rfl
  have hMt : (Trig.mergeAndSortTriggerResults results).triggersByUserId =
      (results.foldl Trig.stepResult ⟨[], [], [], none⟩).triggersByUserId := rfl
  refine ⟨?_, ?_, ?_⟩
  · rw [hMd, hMt]
    exact Trig.nodup_foldResults results ⟨[], [], [], none⟩ (by simp) (by simp)
  · intro u happ
    have hpdne : Trig.personDates results u ≠ [] := by
      intro hnil
      exact (Trig.personDates_eq_nil results u).mp hnil happ
    have hptne : Trig.personTrigs results u ≠ [] := by
      intro hnil
      exact (Trig.personTrigs_eq_nil results u).mp hnil happ
    constructor
    · rcases hpd : Trig.personDates results u with _ | ⟨d₀, ds⟩
      · exact absurd hpd hpdne
      have hD := Trig.dates_foldResults results
        (⟨[], [], [], none⟩ : Trig.MergeState γ) u
      rw [hpd] at hD
      simp only [mget, Option.getD_none] at hD
      refine ⟨(d₀ :: ds).foldl maxStr "", by rw [hMd]; exact hD, ?_, ?_⟩
      · have hmem : (d₀ :: ds).foldl maxStr "" ∈ d₀ :: ds := by
          rcases foldl_maxStr_mem "" (d₀ :: ds) with he | hm
          · have hbound := (foldl_maxStr_notLt "" (d₀ :: ds)).2 d₀ (by simp)
            rw [he] at hbound
            have hd₀ := strLt_empty_false hbound
            rw [he, ← hd₀]
            simp
          · exact hm
        rw [← hpd] at hmem
        obtain ⟨r, hr, hu, hval⟩ := (Trig.personDates_mem results u _).mp hmem
        obtain ⟨dv, hdv⟩ := Option.isSome_iff_exists.mp (hwf r hr u hu)
        rw [hdv] at hval
        simp only [Option.getD_some] at hval
        exact ⟨r, hr, hu, by rw [hdv, hval, hpd]⟩
      · intro r hr hu dr hdr
        have hmem : dr ∈ Trig.personDates results u :=
          (Trig.personDates_mem results u dr).mpr
            ⟨r, hr, hu, by rw [hdr]; rfl⟩
        rw [hpd] at hmem
        exact (foldl_maxStr_notLt "" (d₀ :: ds)).2 dr hmem
    · rcases hpt : Trig.personTrigs results u with _ | ⟨t₀, ts⟩
      · exact absurd hpt hptne
      have hT := Trig.trigs_foldResults results
        (⟨[], [], [], none⟩ : Trig.MergeState γ) u
      rw [hpt] at hT
      simp only [mget, Option.getD_none] at hT
      refine ⟨(t₀ :: ts).foldl Trig.appendIfNew [], by rw [hMt]; exact hT,
        Trig.foldl_appendIfNew_nodup _ _ (by simp), ?_⟩
      intro t
      rw [Trig.foldl_appendIfNew_mem]
      rw [← Trig.personTrigs_mem results u t, hpt]
      simp
  · intro u hnapp
    have hpd := (Trig.personDates_eq_nil results u).mpr hnapp
    have hpt := (Trig.personTrigs_eq_nil results u).mpr hnapp
    have hD := Trig.dates_foldResults results
      (⟨[], [], [], none⟩ : Trig.MergeState γ) u
    have hT := Trig.trigs_foldResults results
      (⟨[], [], [], none⟩ : Trig.MergeState γ) u
    rw [hpd] at hD
    rw [hpt] at hT
    simp only [mget] at hD hT
    exact ⟨by rw [hMd]; exact hD, by rw [hMt]; exact hT⟩

/-- Witness for the C1 theorem at the spec's example inputs. -/
theorem merge_completeness_witness :
    (∀ r ∈ Trig.exampleResults, ∀ u ∈ r.userIds,
      (mget r.dates u).isSome = true) ∧
    ((((Trig.mergeAndSortTriggerResults Trig.exampleResults).datesByUserId.map
        Prod.fst).Nodup ∧
      ((Trig.mergeAndSortTriggerResults
        Trig.exampleResults).triggersByUserId.map Prod.fst).Nodup) ∧
    (∀ u : String, (∃ r ∈ Trig.exampleResults, u ∈ r.userIds) →
      (∃ d, mget (Trig.mergeAndSortTriggerResults
          Trig.exampleResults).datesByUserId u = some d ∧
        (∃ r ∈ Trig.exampleResults, u ∈ r.userIds ∧
          mget r.dates u = some d) ∧
        (∀ r ∈ Trig.exampleResults, u ∈ r.userIds →
          ∀ dr, mget r.dates u = some dr → strLt d dr = false)) ∧
      (∃ l, mget (Trig.mergeAndSortTriggerResults
          Trig.exampleResults).triggersByUserId u = some l ∧ l.Nodup ∧
        (∀ t, t ∈ l ↔ ∃ r ∈ Trig.exampleResults, u ∈ r.userIds ∧
          r.triggerType = t))) ∧
    (∀ u : String, (¬ ∃ r ∈ Trig.exampleResults, u ∈ r.userIds) →
      mget (Trig.mergeAndSortTriggerResults
        Trig.exampleResults).datesByUserId u = none ∧
      mget (Trig.mergeAndSortTriggerResults
        Trig.exampleResults).triggersByUserId u = none)) :=
  ⟨by decide, merge_completeness Trig.exampleResults (by decide)⟩

/-- C4 (corrected): permuting the input results leaves the per-person
aggregates intact — every person's most recent date binding is identical,
the set of matched trigger types is identical, and the trigger count is
identical — but the first-seen order inside `triggerTypesMatched`, the
relative order of equal-date entries of one person, and the forwarded
`connectionData` follow input order, so the full output is not
permutation-invariant. -/
theorem merge_perm_invariant_aggregates {γ : Type}
    (l₁ l₂ : List (Trig.TriggerQueryResult γ)) (hp : l₁.Perm l₂) :
    (∀ u : String,
      mget (Trig.mergeAndSortTriggerResults l₁).datesByUserId u =
        mget (Trig.mergeAndSortTriggerResults l₂).datesByUserId u) ∧
    (∀ (u : String) (t : Trig.TriggerType),
      (∃ ts, mget (Trig.mergeAndSortTriggerResults l₁).triggersByUserId u =
          some ts ∧ t ∈ ts) ↔
      (∃ ts, mget (Trig.mergeAndSortTriggerResults l₂).triggersByUserId u =
          some ts ∧ t ∈ ts)) ∧
    (Trig.mergeAndSortTriggerResults l₁).totalTriggersActive =
      (Trig.mergeAndSortTriggerResults l₂).totalTriggersActive := by
  haveI hrc : RightCommutative maxStr :=
    ⟨fun b a₁ a₂ => by rw [maxStr_assoc, maxStr_assoc, maxStr_comm a₁ a₂]⟩
  refine ⟨?_, ?_, hp.length_eq⟩
  · intro u
    have hperm : (Trig.personDates l₁ u).Perm (Trig.personDates l₂ u) :=
      hp.filterMap _
    have h₁ : mget (Trig.mergeAndSortTriggerResults l₁).datesByUserId u =
        mget ((l₁.foldl Trig.stepResult ⟨[], [], [], none⟩).datesByUserId) u :=
      rfl
    have h₂ : mget (Trig.mergeAndSortTriggerResults l₂).datesByUserId u =
        mget ((l₂.foldl Trig.stepResult ⟨[], [], [], none⟩).datesByUserId) u :=
      rfl
    rw [h₁, h₂, Trig.dates_foldResults, Trig.dates_foldResults]
    rcases hpd₁ : Trig.personDates l₁ u with _ | ⟨d₀, ds⟩
    · rw [hpd₁] at hperm
      rw [← hperm.nil_eq]
    · rcases hpd₂ : Trig.personDates l₂ u with _ | ⟨e₀, es⟩
      · rw [hpd₁, hpd₂] at hperm
        cases hperm.eq_nil
      · rw [hpd₁, hpd₂] at hperm
        have hfold : (d₀ :: ds).foldl maxStr
            ((mget (⟨[], [], [], none⟩ :
              Trig.MergeState γ).datesByUserId u).getD "") =
            (e₀ :: es).foldl maxStr
            ((mget (⟨[], [], [], none⟩ :
              Trig.MergeState γ).datesByUserId u).getD "") :=
          hperm.foldl_eq _
        simp only
        rw [hfold]
  · intro u t
    have hperm : (Trig.personTrigs l₁ u).Perm (Trig.personTrigs l₂ u) :=
      hp.filterMap _
    have h₁ : mget (Trig.mergeAndSortTriggerResults l₁).triggersByUserId u =
        mget ((l₁.foldl Trig.stepResult ⟨[], [], [], none⟩).triggersByUserId)
          u := rfl
    have h₂ : mget (Trig.mergeAndSortTriggerResults l₂).triggersByUserId u =
        mget ((l₂.foldl Trig.stepResult ⟨[], [], [], none⟩).triggersByUserId)
          u := rfl
    rw [h₁, h₂, Trig.trigs_foldResults, Trig.trigs_foldResults]
    rcases hpt₁ : Trig.personTrigs l₁ u with _ | ⟨t₀, ts⟩
    · rw [hpt₁] at hperm
      rw [← hperm.nil_eq]
    · rcases hpt₂ : Trig.personTrigs l₂ u with _ | ⟨s₀, ss⟩
      · rw [hpt₁, hpt₂] at hperm
        cases hperm.eq_nil
      · rw [hpt₁, hpt₂] at hperm
        simp only
        constructor
        · rintro ⟨xs, hxs, hmem⟩
          rw [← Option.some.inj hxs] at hmem
          refine ⟨_, rfl, ?_⟩
          rw [Trig.foldl_appendIfNew_mem] at hmem ⊢
          rcases hmem with h | h
          · exact Or.inl h
          · exact Or.inr (hperm.mem_iff.mp h)
        · rintro ⟨xs, hxs, hmem⟩
          rw [← Option.some.inj hxs] at hmem
          refine ⟨_, rfl, ?_⟩
          rw [Trig.foldl_appendIfNew_mem] at hmem ⊢
          rcases hmem with h | h
          · exact Or.inl h
          · exact Or.inr (hperm.mem_iff.mpr h)

/-- Witness for the C4 theorem: two single-person results in swapped
order. -/
theorem merge_perm_invariant_aggregates_witness :
    (([{ triggerType := .bio_change, userIds := ["1"],
         dates := [("1", "2024-01-01")] },
       { triggerType := .stealth_in, userIds := ["1"],
         dates := [("1", "2024-01-01")] }] :
      List (Trig.TriggerQueryResult Unit)).Perm
      [{ triggerType := .stealth_in, userIds := ["1"],
         dates := [("1", "2024-01-01")] },
       { triggerType := .bio_change, userIds := ["1"],
         dates := [("1", "2024-01-01")] }]) ∧
    ((∀ u : String,
      mget (Trig.mergeAndSortTriggerResults
        ([{ triggerType := .bio_change, userIds := ["1"],
            dates := [("1", "2024-01-01")] },
          { triggerType := .stealth_in, userIds := ["1"],
            dates := [("1", "2024-01-01")] }] :
          List (Trig.TriggerQueryResult Unit))).datesByUserId u =
        mget (Trig.mergeAndSortTriggerResults
        ([{ triggerType := .stealth_in, userIds := ["1"],
            dates := [("1", "2024-01-01")] },
          { triggerType := .bio_change, userIds := ["1"],
            dates := [("1", "2024-01-01")] }] :
          List (Trig.TriggerQueryResult Unit))).datesByUserId u) ∧
    (∀ (u : String) (t : Trig.TriggerType),
      (∃ ts, mget (Trig.mergeAndSortTriggerResults
          ([{ triggerType := .bio_change, userIds := ["1"],
              dates := [("1", "2024-01-01")] },
            { triggerType := .stealth_in, userIds := ["1"],
              dates := [("1", "2024-01-01")] }] :
            List (Trig.TriggerQueryResult Unit))).triggersByUserId u =
          some ts ∧ t ∈ ts) ↔
      (∃ ts, mget (Trig.mergeAndSortTriggerResults
          ([{ triggerType := .stealth_in, userIds := ["1"],
              dates := [("1", "2024-01-01")] },
            { triggerType := .bio_change, userIds := ["1"],
              dates := [("1", "2024-01-01")] }] :
            List (Trig.TriggerQueryResult Unit))).triggersByUserId u =
          some ts ∧ t ∈ ts)) ∧
    (Trig.mergeAndSortTriggerResults
      ([{ triggerType := .bio_change, userIds := ["1"],
          dates := [("1", "2024-01-01")] },
        { triggerType := .stealth_in, userIds := ["1"],
          dates := [("1", "2024-01-01")] }] :
        List (Trig.TriggerQueryResult Unit))).totalTriggersActive =
    (Trig.mergeAndSortTriggerResults
      ([{ triggerType := .stealth_in, userIds := ["1"],
          dates := [("1", "2024-01-01")] },
        { triggerType := .bio_change, userIds := ["1"],
          dates := [("1", "2024-01-01")] }] :
        List (Trig.TriggerQueryResult Unit))).totalTriggersActive) :=
  ⟨List.Perm.swap _ _ _,
   merge_perm_invariant_aggregates _ _ (List.Perm.swap _ _ _)⟩

/-- C4 counterexample to the claim as stated: swapping two same-person,
same-date results with different trigger types changes both the sorted
entries list (the two equal-date entries keep their input order under the
stable sort) and the first-seen order inside `triggersByUserId`, so merge is
not permutation-invariant as a whole. -/
theorem merge_not_perm_invariant_counterexample :
    (([{ triggerType := .bio_change, userIds := ["1"],
         dates := [("1", "2024-01-01")] },
       { triggerType := .stealth_in, userIds := ["1"],
         dates := [("1", "2024-01-01")] }] :
      List (Trig.TriggerQueryResult Unit)).Perm
      [{ triggerType := .stealth_in, userIds := ["1"],
         dates := [("1", "2024-01-01")] },
       { triggerType := .bio_change, userIds := ["1"],
         dates := [("1", "2024-01-01")] }]) ∧
    (Trig.mergeAndSortTriggerResults
      ([{ triggerType := .bio_change, userIds := ["1"],
          dates := [("1", "2024-01-01")] },
        { triggerType := .stealth_in, userIds := ["1"],
          dates := [("1", "2024-01-01")] }] :
        List (Trig.TriggerQueryResult Unit))).entries ≠
    (Trig.mergeAndSortTriggerResults
      ([{ triggerType := .stealth_in, userIds := ["1"],
          dates := [("1", "2024-01-01")] },
        { triggerType := .bio_change, userIds := ["1"],
          dates := [("1", "2024-01-01")] }] :
        List (Trig.TriggerQueryResult Unit))).entries ∧
    (Trig.mergeAndSortTriggerResults
      ([{ triggerType := .bio_change, userIds := ["1"],
          dates := [("1", "2024-01-01")] },
        { triggerType := .stealth_in, userIds := ["1"],
          dates := [("1", "2024-01-01")] }] :
        List (Trig.TriggerQueryResult Unit))).triggersByUserId ≠
    (Trig.mergeAndSortTriggerResults
      ([{ triggerType := .stealth_in, userIds := ["1"],
          dates := [("1", "2024-01-01")] },
        { triggerType := .bio_change, userIds := ["1"],
          dates := [("1", "2024-01-01")] }] :
        List (Trig.TriggerQueryResult Unit))).triggersByUserId :=
  ⟨List.Perm.swap _ _ _, by decide, by decide⟩

/-- C9 (implicit): `addMessages` stores only role and content, so no stored
message ever carries tool events, the per-pass trim counter reported by
`getMetrics` is always 0, and the tool-trimming pass is the identity on any
event-free message list. -/
theorem tool_trimming_never_fires (cfg : Ctx.ContextConfig)
    (s : Ctx.SessionState) (hr : Ctx.Reachable cfg s) :
    (∀ m ∈ s.rawMessages, m.toolEvents = none) ∧
    (Ctx.getMetrics s).toolTrimCount = 0 ∧
    (∀ msgs : List Ctx.InternalMessage, (∀ m ∈ msgs, m.toolEvents = none) →
      Ctx.applyToolTrimming cfg msgs = (msgs, 0)) := by
  obtain ⟨hcfg, h1, h2, h3, h4⟩ := Ctx.session_invariant cfg s hr
  exact ⟨h1, by rw [Ctx.getMetrics_toolTrimCount]; exact h2,
    fun msgs h => Ctx.applyToolTrimming_id cfg msgs h⟩

/-- Witness for the C9 theorem: a session that added two messages and then
computed its optimized view. -/
theorem tool_trimming_never_fires_witness :
    Ctx.Reachable Ctx.defaultContextConfig
      (Ctx.getOptimizedMessages (fun _ => none)
        (Ctx.addMessages
          [{ role := Ctx.Role.user, content := "hi" },
           { role := Ctx.Role.assistant, content := "yo" }]
          (Ctx.initialSession Ctx.defaultContextConfig))).2 ∧
    ((∀ m ∈ (Ctx.getOptimizedMessages (fun _ => none)
        (Ctx.addMessages
          [{ role := Ctx.Role.user, content := "hi" },
           { role := Ctx.Role.assistant, content := "yo" }]
          (Ctx.initialSession Ctx.defaultContextConfig))).2.rawMessages,
        m.toolEvents = none) ∧
    (Ctx.getMetrics (Ctx.getOptimizedMessages (fun _ => none)
        (Ctx.addMessages
          [{ role := Ctx.Role.user, content := "hi" },
           { role := Ctx.Role.assistant, content := "yo" }]
          (Ctx.initialSession Ctx.defaultContextConfig))).2).toolTrimCount =
      0 ∧
    (∀ msgs : List Ctx.InternalMessage, (∀ m ∈ msgs, m.toolEvents = none) →
      Ctx.applyToolTrimming Ctx.defaultContextConfig msgs = (msgs, 0))) :=
  ⟨Ctx.Reachable.opt _ (Ctx.Reachable.add _ Ctx.Reachable.init),
   tool_trimming_never_fires Ctx.defaultContextConfig _
     (Ctx.Reachable.opt _ (Ctx.Reachable.add _ Ctx.Reachable.init))⟩

end Signa
